import Mathlib

/-!
Shallow embedding of `elmer_circuitbuilder.py` (Elmer circuit builder).

The source builds, from a list of two-terminal electrical components, the
incidence matrix of the circuit graph, per-branch constitutive matrices,
the source vector, and the assembled sparse-tableau stiffness/damping
system, each on two parallel tracks: a numeric track (numpy float/complex
arrays) and a symbolic track (numpy byte-string arrays holding text
tokens).  Python floats are modelled by rationals, complex values by pairs
of rationals, numpy 2-D arrays by a structure carrying the two dimensions
and a total entry function, and every operation that can raise a Python
exception (out-of-range indexing, assigning None or a complex value into a
float array) returns an `Option`.

Numpy modelling notes, used throughout:
* indexing an axis of length `n` with an integer `i` succeeds when
  `-n ≤ i < n`; a negative `i` silently wraps to `n + i`; anything else
  raises `IndexError` (modelled as `none`);
* `numpy` addition of byte-string arrays concatenates the entries;
* `np.block` mixing a byte-string array with a float array promotes the
  float entries to their decimal text (`0.0`, `-0.0`, `1.0`, `-1.0`),
  which is exactly what the normalization pass in
  `get_tableau_matrix_str` cleans up afterwards.
-/

/-- A Python numeric scalar as stored in `Component.value`: either a real
(float/int) or a `complex` instance.  `isinstance(v, complex)` is true
exactly for the `cplx` constructor. -/
inductive CVal where
  | real (q : ℚ)
  | cplx (re im : ℚ)
deriving DecidableEq, Repr

/-- A complex number as a pair of rationals, the value domain of the
numeric RHS track. -/
structure QC where
  re : ℚ
  im : ℚ
deriving DecidableEq, Repr

def qcAdd (x y : QC) : QC := ⟨x.re + y.re, x.im + y.im⟩

/-- The concrete `Component` subclasses of the source
(`R`, `V`, `I`, `L`, `C`, `ElmerComponent`), plus the base class itself,
discriminated by tag: `isinstance` tests in `get_indices` become tag
comparisons. -/
inductive CompKind where
  | res | vsrc | isrc | ind | cap | celm | generic
deriving DecidableEq, Repr

/-- A `Component`: name, two terminal pins (arbitrary integers, as in the
source, where nothing forces them positive), and an optional value. -/
structure Comp where
  kind : CompKind
  name : String
  pin1 : ℤ
  pin2 : ℤ
  value : Option CVal
deriving DecidableEq, Repr

/-- A numpy 2-D array over `α`: its shape and a total entry function
(entries outside the shape are irrelevant to every claim). -/
structure NpMat (α : Type) where
  rows : ℕ
  cols : ℕ
  entry : ℕ → ℕ → α

/-- Resolution of a Python/numpy index `i` against an axis of length `n`:
in-range indices pass through, negative ones wrap around (this is the
silent behaviour behind claim C8), all others raise `IndexError`. -/
def npIndex (n : ℕ) (i : ℤ) : Option ℕ :=
  if 0 ≤ i ∧ i < (n : ℤ) then some i.toNat
  else if -(n : ℤ) ≤ i ∧ i < 0 then some ((n : ℤ) + i).toNat
  else none

def npZeros (m n : ℕ) : NpMat ℚ := ⟨m, n, fun _ _ => 0⟩

/-- A float-zeros block after promotion into a byte-string array by
`np.block`: every cell reads `0.0`. -/
def npZerosStr (m n : ℕ) : NpMat String := ⟨m, n, fun _ _ => "0.0"⟩

/-- `-np.eye n n` (float). Off-diagonal cells are `-0.0 = 0` in `ℚ`. -/
def npNegEye (n : ℕ) : NpMat ℚ := ⟨n, n, fun i j => if i = j then -1 else 0⟩

/-- `-np.eye n n` promoted into a byte-string array: diagonal `-1.0`,
off-diagonal `-0.0`. -/
def npNegEyeStr (n : ℕ) : NpMat String :=
  ⟨n, n, fun i j => if i = j then "-1.0" else "-0.0"⟩

def npT {α : Type} (A : NpMat α) : NpMat α := ⟨A.cols, A.rows, fun i j => A.entry j i⟩

/-- Elementwise `+` of float arrays. -/
def npAdd (A B : NpMat ℚ) : NpMat ℚ := ⟨A.rows, A.cols, fun i j => A.entry i j + B.entry i j⟩

/-- Elementwise `+` of byte-string arrays: numpy concatenates. -/
def npCat (A B : NpMat String) : NpMat String :=
  ⟨A.rows, A.cols, fun i j => A.entry i j ++ B.entry i j⟩

def npMap {α : Type} (f : α → α) (A : NpMat α) : NpMat α :=
  ⟨A.rows, A.cols, fun i j => f (A.entry i j)⟩

/-- One row of `np.block`: `[A | B | C]`, dispatching columns by the
actual widths of the parts, as numpy does. -/
def hblock3 {α : Type} (A B C : NpMat α) : NpMat α :=
  ⟨A.rows, A.cols + B.cols + C.cols, fun i j =>
    if j < A.cols then A.entry i j
    else if j < A.cols + B.cols then B.entry i (j - A.cols)
    else C.entry i (j - A.cols - B.cols)⟩

/-- A column of `np.block`: `[A; B; C]`. -/
def vblock3 {α : Type} (A B C : NpMat α) : NpMat α :=
  ⟨A.rows + B.rows + C.rows, A.cols, fun i j =>
    if i < A.rows then A.entry i j
    else if i < A.rows + B.rows then B.entry (i - A.rows) j
    else C.entry (i - A.rows - B.rows) j⟩

/-- `np.block [[A], [B]]`. -/
def vblock2 {α : Type} (A B : NpMat α) : NpMat α :=
  ⟨A.rows + B.rows, A.cols, fun i j =>
    if i < A.rows then A.entry i j else B.entry (i - A.rows) j⟩

/-- `np.delete(A, r, 0)`: drop row `r` (a Python index: it wraps when
negative and raises when out of range). -/
def npDelete {α : Type} (A : NpMat α) (r : ℤ) : Option (NpMat α) :=
  (npIndex A.rows r).map fun r0 =>
    ⟨A.rows - 1, A.cols, fun i j => A.entry (if i < r0 then i else i + 1) j⟩

/-- `get_num_nodes`: length of the list of unique pins, collected in
first-appearance order (`pin1` before `pin2`, component by component). -/
def get_num_nodes (components : List Comp) : ℕ :=
  (components.foldl (fun acc c =>
    let acc1 := if c.pin1 ∈ acc then acc else acc ++ [c.pin1]
    if c.pin2 ∈ acc1 then acc1 else acc1 ++ [c.pin2]) []).length

/-- `get_num_edges`. -/
def get_num_edges (components : List Comp) : ℕ := components.length

/-- The row indices of one kind of component, in list order starting at
position `start`: the building block of `get_indices`. -/
def kindIdx (k : CompKind) : List Comp → ℕ → List ℕ
  | [], _ => []
  | c :: rest, start =>
      (if c.kind = k then [start] else []) ++ kindIdx k rest (start + 1)

/-- `get_indices`: the six per-kind index lists
`(indr, indv, indi, indInd, indcap, indcelm)`. -/
def get_indices (components : List Comp) :
    List ℕ × List ℕ × List ℕ × List ℕ × List ℕ × List ℕ :=
  (kindIdx .res components 0, kindIdx .vsrc components 0, kindIdx .isrc components 0,
   kindIdx .ind components 0, kindIdx .cap components 0, kindIdx .celm components 0)

/-- The two index comprehensions at the head of `get_incidence_matrix`
combined with the assignment loops that consume them: for
`j in range(num_edges)` resolve `components[j].pin - 1` against the row
axis.  Raises (`none`) when `j` falls off the component list or the
resolved index is invalid for numpy. -/
def resolveRows (components : List Comp) (num_nodes : ℕ) (pin : Comp → ℤ) :
    ℕ → ℕ → Option (List ℕ)
  | 0, _ => some []
  | k + 1, j => do
      let c ← components[j]?
      let r ← npIndex num_nodes (pin c - 1)
      let rest ← resolveRows components num_nodes pin k (j + 1)
      some (r :: rest)

/-- `get_incidence_matrix`: `Amat_plus` holds the `+1` of each column at
the resolved `pin1 - 1` row, `Amat_minus` the `-1` at `pin2 - 1`, the two
are added, and the reference row `n_ref - 1` is deleted. -/
def get_incidence_matrix (components : List Comp) (num_nodes num_edges : ℕ)
    (n_ref : ℤ) : Option (NpMat ℚ) := do
  let n1 ← resolveRows components num_nodes (·.pin1) num_edges 0
  let n2 ← resolveRows components num_nodes (·.pin2) num_edges 0
  let Amat_plus : NpMat ℚ :=
    ⟨num_nodes, num_edges, fun i j => if n1[j]? = some i then 1 else 0⟩
  let Amat_minus : NpMat ℚ :=
    ⟨num_nodes, num_edges, fun i j => if n2[j]? = some i then -1 else 0⟩
  let Amat_comp := npAdd Amat_plus Amat_minus
  npDelete Amat_comp (n_ref - 1)

/-- `get_incidence_matrix_str`: the symbolic twin.  Cells start as the
empty byte string; the `+` of the two byte-string arrays concatenates, so
a self-loop cell reads `1-1`. -/
def get_incidence_matrix_str (components : List Comp) (numnodes numedges : ℕ)
    (n_ref : ℤ) : Option (NpMat String) := do
  let n1 ← resolveRows components numnodes (·.pin1) numedges 0
  let n2 ← resolveRows components numnodes (·.pin2) numedges 0
  let Amat_plus_str : NpMat String :=
    ⟨numnodes, numedges, fun i j => if n1[j]? = some i then "1" else ""⟩
  let Amat_minus_str : NpMat String :=
    ⟨numnodes, numedges, fun i j => if n2[j]? = some i then "-1" else ""⟩
  let Amat_comp_str := npCat Amat_plus_str Amat_minus_str
  npDelete Amat_comp_str (n_ref - 1)

/-- A loop `for i in idxs: M[i][i] = f i` over an `n × n` array starting
from `base`: later writes shadow earlier ones; an index `≥ n` raises
`IndexError` and `f i = none` models the `TypeError` of storing `None` or
a complex into a float array. -/
def diagAssign {α : Type} (base : ℕ → ℕ → α) (n : ℕ) (f : ℕ → Option α) :
    List ℕ → Option (ℕ → ℕ → α)
  | [] => some base
  | i :: rest =>
      if i < n then
        match f i with
        | some v => diagAssign (fun a b => if a = i ∧ b = i then v else base a b) n f rest
        | none => none
      else none

/-- The real value of a component, the only thing a float-array
assignment accepts; `none` models the Python exception otherwise. -/
def floatVal (c : Comp) : Option ℚ :=
  match c.value with
  | some (.real q) => some q
  | _ => none

/-- `get_resistance_matrix`: `R = R_r + R_i + R_cap` with the component
value on the diagonal at resistor indices and `1` at current-source and
capacitor indices. -/
def get_resistance_matrix (components : List Comp) (nedges : ℕ)
    (indr indi indcap : List ℕ) : Option (NpMat ℚ) := do
  let r ← diagAssign (fun _ _ => (0 : ℚ)) nedges
      (fun i => components[i]?.bind floatVal) indr
  let icur ← diagAssign (fun _ _ => (0 : ℚ)) nedges (fun _ => some 1) indi
  let cap ← diagAssign (fun _ _ => (0 : ℚ)) nedges (fun _ => some 1) indcap
  some ⟨nedges, nedges, fun a b => r a b + icur a b + cap a b⟩

/-- `get_resistance_matrix_str`: same diagonal pattern with the component
name at resistor indices and `1` at current-source/capacitor indices;
byte-string `+` concatenates the three contributions. -/
def get_resistance_matrix_str (components : List Comp) (nedges : ℕ)
    (indr indi indcap : List ℕ) : Option (NpMat String) := do
  let r ← diagAssign (fun _ _ => "") nedges
      (fun i => components[i]?.map (·.name)) indr
  let icur ← diagAssign (fun _ _ => "") nedges (fun _ => some "1") indi
  let cap ← diagAssign (fun _ _ => "") nedges (fun _ => some "1") indcap
  some ⟨nedges, nedges, fun a b => r a b ++ icur a b ++ cap a b⟩

/-- `get_conductance_matrix`: `G = G_r + G_v + G_ind`, diagonal `-1` at
resistor indices, `1` at voltage-source and inductor indices (the source
never touches the component list here). -/
def get_conductance_matrix (nedges : ℕ) (indr indv indInd : List ℕ) :
    Option (NpMat ℚ) := do
  let r ← diagAssign (fun _ _ => (0 : ℚ)) nedges (fun _ => some (-1)) indr
  let v ← diagAssign (fun _ _ => (0 : ℚ)) nedges (fun _ => some 1) indv
  let ind ← diagAssign (fun _ _ => (0 : ℚ)) nedges (fun _ => some 1) indInd
  some ⟨nedges, nedges, fun a b => r a b + v a b + ind a b⟩

/-- `get_conductance_matrix_str`. -/
def get_conductance_matrix_str (nedges : ℕ) (indr indv indInd : List ℕ) :
    Option (NpMat String) := do
  let r ← diagAssign (fun _ _ => "") nedges (fun _ => some "-1") indr
  let v ← diagAssign (fun _ _ => "") nedges (fun _ => some "1") indv
  let ind ← diagAssign (fun _ _ => "") nedges (fun _ => some "1") indInd
  some ⟨nedges, nedges, fun a b => r a b ++ v a b ++ ind a b⟩

/-- `get_inductance_matrix`: diagonal `-value` at inductor indices. -/
def get_inductance_matrix (components : List Comp) (nedges : ℕ)
    (indInd : List ℕ) : Option (NpMat ℚ) := do
  let l ← diagAssign (fun _ _ => (0 : ℚ)) nedges
      (fun i => components[i]?.bind (fun c => (floatVal c).map (fun q => -q))) indInd
  some ⟨nedges, nedges, l⟩

/-- `get_inductance_matrix_str`: diagonal `"-" + name` at inductor
indices. -/
def get_inductance_matrix_str (components : List Comp) (nedges : ℕ)
    (indInd : List ℕ) : Option (NpMat String) := do
  let l ← diagAssign (fun _ _ => "") nedges
      (fun i => components[i]?.map (fun c => "-" ++ c.name)) indInd
  some ⟨nedges, nedges, l⟩

/-- `get_capacitance_matrix`: diagonal `-value` at capacitor indices. -/
def get_capacitance_matrix (components : List Comp) (nedges : ℕ)
    (indcap : List ℕ) : Option (NpMat ℚ) := do
  let c ← diagAssign (fun _ _ => (0 : ℚ)) nedges
      (fun i => components[i]?.bind (fun cc => (floatVal cc).map (fun q => -q))) indcap
  some ⟨nedges, nedges, c⟩

/-- `get_capacitance_matrix_str`: diagonal `"-" + name` at capacitor
indices. -/
def get_capacitance_matrix_str (components : List Comp) (nedges : ℕ)
    (indcap : List ℕ) : Option (NpMat String) := do
  let c ← diagAssign (fun _ _ => "") nedges
      (fun i => components[i]?.map (fun cc => "-" ++ cc.name)) indcap
  some ⟨nedges, nedges, c⟩

/-- The mutable state of one RHS accumulation loop in `get_rhs`: the
current array (`rhs_i` resp. `rhs_v`), the separate real/imaginary
accumulator arrays, and the `complex_switch` flag. -/
structure RhsTrack where
  cur : ℕ → QC
  reArr : ℕ → ℚ
  imArr : ℕ → ℚ
  sw : Bool

/-- One loop of `get_rhs` over an index list with sign `s` (`+1` for the
current sources, `-1` for the voltage sources).  A complex value routes
through the real/imaginary accumulators, creating them zeroed the first
time (`complex_switch`) and then rebuilding the whole array from them,
which is exactly how previously written real entries get discarded;
a real value is written into the current array in place. -/
def rhsLoop (components : List Comp) (nedges : ℕ) (s : ℚ) :
    RhsTrack → List ℕ → Option RhsTrack
  | t, [] => some t
  | t, i :: rest => do
      let c ← components[i]?
      if i < nedges then
        match c.value with
        | some (.cplx re im) =>
            let t1 := if t.sw then
                { t with reArr := fun _ => 0, imArr := fun _ => 0, sw := false }
              else t
            let re2 := fun k => if k = i then s * re else t1.reArr k
            let im2 := fun k => if k = i then s * im else t1.imArr k
            rhsLoop components nedges s
              ⟨fun k => ⟨re2 k, im2 k⟩, re2, im2, t1.sw⟩ rest
        | some (.real q) =>
            rhsLoop components nedges s
              { t with cur := fun k => if k = i then ⟨s * q, 0⟩ else t.cur k } rest
        | none => none
      else none

def rhsInit : RhsTrack := ⟨fun _ => ⟨0, 0⟩, fun _ => 0, fun _ => 0, true⟩

/-- `get_rhs`: `rhs = rhs_v + rhs_i`, each accumulated by its own loop. -/
def get_rhs (components : List Comp) (nedges : ℕ) (indi indv : List ℕ) :
    Option (NpMat QC) := do
  let ti ← rhsLoop components nedges 1 rhsInit indi
  let tv ← rhsLoop components nedges (-1) rhsInit indv
  some ⟨nedges, 1, fun i _ => qcAdd (tv.cur i) (ti.cur i)⟩

/-- `get_rhs_str`: component name at current-source indices, `"-" + name`
at voltage-source indices; the final byte-string `+` concatenates the two
vectors. -/
def get_rhs_str (components : List Comp) (nedges : ℕ) (indi indv : List ℕ) :
    Option (NpMat String) := do
  let ivec ← diagAssign (fun _ _ => "") nedges
      (fun i => components[i]?.map (·.name)) indi
  let vvec ← diagAssign (fun _ _ => "") nedges
      (fun i => components[i]?.map (fun c => "-" ++ c.name)) indv
  some ⟨nedges, 1, fun i _ => vvec i i ++ ivec i i⟩

/-- `get_tableau_matrix`: the three block equations
`[[A 0 0], [0 -I Aᵀ], [R G 0]]`, the damping block `[[0], [L C 0]]`, and
the source block `[0; 0; fvec]`, assembled with `np.block`. -/
def get_tableau_matrix (Amat Rmat Gmat Lmat Cmat fvec : NpMat ℚ)
    (num_nodes num_edges : ℕ) : NpMat ℚ × NpMat ℚ × NpMat ℚ :=
  let M_kcl := hblock3 Amat (npZeros (num_nodes - 1) num_edges)
      (npZeros (num_nodes - 1) (num_nodes - 1))
  let M_kvl := hblock3 (npZeros num_edges num_edges) (npNegEye num_edges) (npT Amat)
  let M_comp := hblock3 Rmat Gmat (npZeros num_edges (num_nodes - 1))
  let Mmat1 := vblock3 M_kcl M_kvl M_comp
  let bvec := vblock3 (npZeros (num_nodes - 1) 1) (npZeros num_edges 1) fvec
  let Mmat2 := vblock2
      (npZeros (num_edges + (num_nodes - 1)) (2 * num_edges + (num_nodes - 1)))
      (hblock3 Lmat Cmat (npZeros num_edges (num_nodes - 1)))
  (Mmat1, Mmat2, bvec)

/-- The normalization applied to every cell of the symbolic stiffness and
damping matrices: empty and float-zero artifacts collapse to `0`, float
ones to `1`/`-1`. -/
def clean1 (s : String) : String :=
  if s = "" ∨ s = "0.0" ∨ s = "-0.0" then "0"
  else if s = "-1.0" then "-1"
  else if s = "1.0" then "1"
  else s

/-- The normalization applied to the symbolic source vector cells. -/
def cleanb (s : String) : String :=
  if s = "" ∨ s = "0.0" ∨ s = "-0.0" then "0" else s

/-- `get_tableau_matrix_str`: the same block assembly on byte-string
arrays.  The float zero and `-np.eye` blocks are promoted to decimal text
by `np.block`, and the trailing cleanup loops rewrite the cells of
`Mmat1_str`, `Mmat2_str` and `bvec_str` to canonical `0`, `1`, `-1`. -/
def get_tableau_matrix_str (Amat Rmat Gmat Lmat Cmat fvec : NpMat String)
    (numnodes numedges : ℕ) : NpMat String × NpMat String × NpMat String :=
  let M_kcl := hblock3 Amat (npZerosStr (numnodes - 1) numedges)
      (npZerosStr (numnodes - 1) (numnodes - 1))
  let M_kvl := hblock3 (npZerosStr numedges numedges) (npNegEyeStr numedges) (npT Amat)
  let M_comp := hblock3 Rmat Gmat (npZerosStr numedges (numnodes - 1))
  let Mmat1 := vblock3 M_kcl M_kvl M_comp
  let fvec2 := npMap cleanb fvec
  let bvec := npMap cleanb
      (vblock3 (npZerosStr (numnodes - 1) 1) (npZerosStr numedges 1) fvec2)
  let Mmat2 := vblock2
      (npZerosStr (numedges + (numnodes - 1)) (2 * numedges + (numnodes - 1)))
      (hblock3 Lmat Cmat (npZerosStr numedges (numnodes - 1)))
  (npMap clean1 Mmat1, npMap clean1 Mmat2, bvec)

/-- `elmer_Bmat[[zrow, vcomprow]] = elmer_Bmat[[vcomprow, zrow]]`: a numpy
fancy-indexing swap of two rows, reading both before writing; an index
past the end raises. -/
def npRowSwap {ρ : Type} (M : List ρ) (a b : ℕ) : Option (List ρ) :=
  match M[a]?, M[b]? with
  | some ra, some rb => some ((M.set a rb).set b ra)
  | _, _ => none

/-- The swap loop of `elmer_format_matrix` applied to one matrix. -/
def npSwapFold {ρ : Type} (M : List ρ) : List (ℕ × ℕ) → Option (List ρ)
  | [] => some M
  | p :: rest => do
      let M1 ← npRowSwap M p.1 p.2
      npSwapFold M1 rest

/-- `elmer_format_matrix`: swap each `(zero_row, vcomp_row)` pair produced
by `zip(zero_rows, vcomp_rows)` — `zip` truncates to the shorter list —
identically in the stiffness matrix, the damping matrix and the source
vector, returning `(elmer_Amat, elmer_Bmat, elmer_source)`. -/
def elmer_format_matrix {ρ₁ ρ₂ ρ₃ : Type} (M1_str : List ρ₁) (M2_str : List ρ₂)
    (b_str : List ρ₃) (vcomp_rows zero_rows : List ℕ) :
    Option (List ρ₂ × List ρ₁ × List ρ₃) := do
  let pairs := zero_rows.zip vcomp_rows
  let elmer_Bmat ← npSwapFold M1_str pairs
  let elmer_Amat ← npSwapFold M2_str pairs
  let elmer_source ← npSwapFold b_str pairs
  some (elmer_Amat, elmer_Bmat, elmer_source)

/-- The mutable terminal state of an `ElmerComponent`:
`__is_closed` (initially `None`), `__bnd1`, `__bnd2` (initially `None`). -/
structure ECState where
  closedFlag : Option Bool
  bnd1 : Option ℤ
  bnd2 : Option ℤ
deriving DecidableEq, Repr

def ecInit : ECState := ⟨none, none, none⟩

/-- The two mutating calls of the open/closed protocol. -/
inductive ECCall where
  | close
  | open2 (b1 b2 : ℤ)
deriving DecidableEq, Repr

/-- `isClosed()` sets only the flag; `isOpen(bnd1, bnd2)` stores the two
boundaries and clears the flag.  Neither resets the other's fields. -/
def ecStep (s : ECState) : ECCall → ECState
  | .close => { s with closedFlag := some true }
  | .open2 b1 b2 => ⟨some false, some b1, some b2⟩

def ecRun (calls : List ECCall) : ECState := calls.foldl ecStep ecInit

/-- `getTerminalType()`. -/
def getTerminalType (s : ECState) : Option Bool := s.closedFlag

/-- `getOpenTerminals()`. -/
def getOpenTerminals (s : ECState) : List (Option ℤ) := [s.bnd1, s.bnd2]

/-! ## Helper lemmas: incidence construction -/

/-- The value the fill loops of the incidence builders store for column
`j`: the numpy-resolved row index of `pin - 1`. -/
def resolved (components : List Comp) (num_nodes : ℕ) (pin : Comp → ℤ) (j : ℕ) :
    Option ℕ :=
  components[j]?.bind fun c => npIndex num_nodes (pin c - 1)

/-- The row index of pre-deletion row that post-deletion row `i` came
from, after `np.delete` removed row `r0`. -/
def skipIdx (r0 i : ℕ) : ℕ := if i < r0 then i else i + 1

lemma npIndex_of_pos {n : ℕ} {p : ℤ} (h1 : 1 ≤ p) (h2 : p ≤ (n : ℤ)) :
    npIndex n (p - 1) = some (p - 1).toNat := by
  unfold npIndex
  rw [if_pos ⟨by omega, by omega⟩]

lemma resolveRows_spec (comps : List Comp) (n : ℕ) (pin : Comp → ℤ) :
    ∀ (k j : ℕ), (∀ t, t < k → (resolved comps n pin (j + t)).isSome) →
    ∃ l, resolveRows comps n pin k j = some l ∧ l.length = k ∧
      ∀ t, l[t]? = if t < k then resolved comps n pin (j + t) else none := by
  intro k
  induction k with
  | zero =>
      intro j _
      exact ⟨[], rfl, rfl, fun t => by simp⟩
  | succ k ih =>
      intro j h
      have h0 := h 0 (Nat.succ_pos k)
      rw [Nat.add_zero] at h0
      obtain ⟨c, hc⟩ : ∃ c, comps[j]? = some c := by
        unfold resolved at h0
        cases hcj : comps[j]? with
        | none => rw [hcj] at h0; simp at h0
        | some c => exact ⟨c, rfl⟩
      obtain ⟨r, hr⟩ : ∃ r, npIndex n (pin c - 1) = some r := by
        unfold resolved at h0
        rw [hc, Option.some_bind] at h0
        exact Option.isSome_iff_exists.mp h0
      obtain ⟨rest, hrest, hlen, hget⟩ := ih (j + 1) (by
        intro t ht
        have := h (t + 1) (by omega)
        rwa [show j + (t + 1) = j + 1 + t by omega] at this)
      refine ⟨r :: rest, ?_, by simp [hlen], ?_⟩
      · simp [resolveRows, hc, hr, hrest]
      · intro t
        cases t with
        | zero =>
            simp only [List.getElem?_cons_zero, if_pos (Nat.succ_pos k)]
            simp [resolved, hc, hr]
        | succ t =>
            simp only [List.getElem?_cons_succ, hget t]
            rw [show j + 1 + t = j + (t + 1) by omega]
            by_cases ht : t < k
            · rw [if_pos ht, if_pos (by omega)]
            · rw [if_neg ht, if_neg (by omega)]

lemma get_incidence_matrix_spec (comps : List Comp) (n : ℕ) (ref : ℤ)
    (H1 : ∀ c ∈ comps, 1 ≤ c.pin1 ∧ c.pin1 ≤ (n : ℤ) ∧ 1 ≤ c.pin2 ∧ c.pin2 ≤ (n : ℤ))
    (H3 : 1 ≤ ref ∧ ref ≤ (n : ℤ)) :
    ∃ M, get_incidence_matrix comps n comps.length ref = some M ∧
      M.rows = n - 1 ∧ M.cols = comps.length ∧
      ∀ i j c, comps[j]? = some c →
        M.entry i j =
          (if (c.pin1 - 1).toNat = skipIdx (ref - 1).toNat i then 1 else 0)
          + (if (c.pin2 - 1).toNat = skipIdx (ref - 1).toNat i then -1 else 0) := by
  have hres : ∀ (pin : Comp → ℤ), (∀ c ∈ comps, 1 ≤ pin c ∧ pin c ≤ (n : ℤ)) →
      ∀ t, t < comps.length → (resolved comps n pin (0 + t)).isSome := by
    intro pin hpin t ht
    unfold resolved
    rw [Nat.zero_add, List.getElem?_eq_getElem ht]
    have hb := hpin comps[t] (List.getElem_mem ht)
    simp [npIndex_of_pos hb.1 hb.2]
  obtain ⟨l1, hl1, hlen1, hget1⟩ := resolveRows_spec comps n (·.pin1) comps.length 0
    (hres _ (fun c hc => ⟨(H1 c hc).1, (H1 c hc).2.1⟩))
  obtain ⟨l2, hl2, hlen2, hget2⟩ := resolveRows_spec comps n (·.pin2) comps.length 0
    (hres _ (fun c hc => ⟨(H1 c hc).2.2.1, (H1 c hc).2.2.2⟩))
  have hrefres : npIndex n (ref - 1) = some (ref - 1).toNat := npIndex_of_pos H3.1 H3.2
  refine ⟨⟨n - 1, comps.length, fun i j =>
      (if l1[j]? = some (if i < (ref - 1).toNat then i else i + 1) then 1 else 0)
      + (if l2[j]? = some (if i < (ref - 1).toNat then i else i + 1) then -1 else 0)⟩,
      ?_, rfl, rfl, ?_⟩
  · simp [get_incidence_matrix, hl1, hl2, npDelete, npAdd, hrefres]
  · intro i j c hc
    have hj : j < comps.length := by
      by_contra hj
      rw [List.getElem?_eq_none (by omega)] at hc
      exact Option.noConfusion hc
    have e1 : l1[j]? = some (c.pin1 - 1).toNat := by
      rw [hget1 j, if_pos hj]
      unfold resolved
      rw [Nat.zero_add, hc, Option.some_bind]
      exact npIndex_of_pos (H1 c (List.getElem?_mem hc)).1 (H1 c (List.getElem?_mem hc)).2.1
    have e2 : l2[j]? = some (c.pin2 - 1).toNat := by
      rw [hget2 j, if_pos hj]
      unfold resolved
      rw [Nat.zero_add, hc, Option.some_bind]
      exact npIndex_of_pos (H1 c (List.getElem?_mem hc)).2.2.1
        (H1 c (List.getElem?_mem hc)).2.2.2
    simp only [skipIdx, e1, e2, Option.some_inj]

lemma get_incidence_matrix_str_spec (comps : List Comp) (n : ℕ) (ref : ℤ)
    (H1 : ∀ c ∈ comps, 1 ≤ c.pin1 ∧ c.pin1 ≤ (n : ℤ) ∧ 1 ≤ c.pin2 ∧ c.pin2 ≤ (n : ℤ))
    (H3 : 1 ≤ ref ∧ ref ≤ (n : ℤ)) :
    ∃ M, get_incidence_matrix_str comps n comps.length ref = some M ∧
      M.rows = n - 1 ∧ M.cols = comps.length ∧
      ∀ i j c, comps[j]? = some c →
        M.entry i j =
          (if (c.pin1 - 1).toNat = skipIdx (ref - 1).toNat i then "1" else "")
          ++ (if (c.pin2 - 1).toNat = skipIdx (ref - 1).toNat i then "-1" else "") := by
  have hres : ∀ (pin : Comp → ℤ), (∀ c ∈ comps, 1 ≤ pin c ∧ pin c ≤ (n : ℤ)) →
      ∀ t, t < comps.length → (resolved comps n pin (0 + t)).isSome := by
    intro pin hpin t ht
    unfold resolved
    rw [Nat.zero_add, List.getElem?_eq_getElem ht]
    have hb := hpin comps[t] (List.getElem_mem ht)
    simp [npIndex_of_pos hb.1 hb.2]
  obtain ⟨l1, hl1, hlen1, hget1⟩ := resolveRows_spec comps n (·.pin1) comps.length 0
    (hres _ (fun c hc => ⟨(H1 c hc).1, (H1 c hc).2.1⟩))
  obtain ⟨l2, hl2, hlen2, hget2⟩ := resolveRows_spec comps n (·.pin2) comps.length 0
    (hres _ (fun c hc => ⟨(H1 c hc).2.2.1, (H1 c hc).2.2.2⟩))
  have hrefres : npIndex n (ref - 1) = some (ref - 1).toNat := npIndex_of_pos H3.1 H3.2
  refine ⟨⟨n - 1, comps.length, fun i j =>
      (if l1[j]? = some (if i < (ref - 1).toNat then i else i + 1) then "1" else "")
      ++ (if l2[j]? = some (if i < (ref - 1).toNat then i else i + 1) then "-1" else "")⟩,
      ?_, rfl, rfl, ?_⟩
  · simp [get_incidence_matrix_str, hl1, hl2, npDelete, npCat, hrefres]
  · intro i j c hc
    have hj : j < comps.length := by
      by_contra hj
      rw [List.getElem?_eq_none (by omega)] at hc
      exact Option.noConfusion hc
    have e1 : l1[j]? = some (c.pin1 - 1).toNat := by
      rw [hget1 j, if_pos hj]
      unfold resolved
      rw [Nat.zero_add, hc, Option.some_bind]
      exact npIndex_of_pos (H1 c (List.getElem?_mem hc)).1 (H1 c (List.getElem?_mem hc)).2.1
    have e2 : l2[j]? = some (c.pin2 - 1).toNat := by
      rw [hget2 j, if_pos hj]
      unfold resolved
      rw [Nat.zero_add, hc, Option.some_bind]
      exact npIndex_of_pos (H1 c (List.getElem?_mem hc)).2.2.1
        (H1 c (List.getElem?_mem hc)).2.2.2
    simp only [skipIdx, e1, e2, Option.some_inj]

/-! ## Helper lemmas: diagonal assignment loops and kind indices -/

lemma diagAssign_spec {α : Type} (n : ℕ) (f : ℕ → Option α) :
    ∀ (idxs : List ℕ) (base : ℕ → ℕ → α),
    (∀ i ∈ idxs, i < n ∧ (f i).isSome) →
    ∃ g, diagAssign base n f idxs = some g ∧
      (∀ a b, a ≠ b ∨ a ∉ idxs → g a b = base a b) ∧
      (∀ a v, a ∈ idxs → f a = some v → g a a = v) := by
  intro idxs
  induction idxs with
  | nil =>
      intro base _
      exact ⟨base, rfl, fun a b _ => rfl, fun a v hv => absurd hv (List.not_mem_nil a)⟩
  | cons i rest ih =>
      intro base h
      have hi := h i (List.mem_cons_self i rest)
      obtain ⟨v0, hv0⟩ := Option.isSome_iff_exists.mp hi.2
      obtain ⟨g, hg, hbase, hdiag⟩ :=
        ih (fun a b => if a = i ∧ b = i then v0 else base a b)
          (fun a ha => h a (List.mem_cons_of_mem i ha))
      refine ⟨g, ?_, ?_, ?_⟩
      · unfold diagAssign
        rw [if_pos hi.1, hv0]
        exact hg
      · intro a b hab
        have hnr : a ≠ b ∨ a ∉ rest := by
          rcases hab with hab | hab
          · exact Or.inl hab
          · exact Or.inr (fun hr => hab (List.mem_cons_of_mem i hr))
        rw [hbase a b hnr]
        have : ¬(a = i ∧ b = i) := by
          rintro ⟨rfl, rfl⟩
          rcases hab with hab | hab
          · exact hab rfl
          · exact hab (List.mem_cons_self _ _)
        rw [if_neg this]
      · intro a v ha hv
        rcases List.mem_cons.mp ha with rfl | har
        · by_cases har : a ∈ rest
          · exact hdiag a v har hv
          · rw [hbase a a (Or.inr har), if_pos ⟨rfl, rfl⟩]
            rw [hv0] at hv
            exact Option.some_inj.mp hv
        · exact hdiag a v har hv

lemma kindIdx_mem (k : CompKind) :
    ∀ (l : List Comp) (s i : ℕ),
    i ∈ kindIdx k l s ↔ ∃ t c, i = s + t ∧ l[t]? = some c ∧ c.kind = k := by
  intro l
  induction l with
  | nil =>
      intro s i
      simp [kindIdx]
  | cons c rest ih =>
      intro s i
      unfold kindIdx
      rw [List.mem_append]
      constructor
      · rintro (h | h)
        · refine ⟨0, c, ?_, by simp, ?_⟩
          · by_cases hk : c.kind = k
            · rw [if_pos hk] at h
              simpa using h
            · rw [if_neg hk] at h
              simp at h
          · by_cases hk : c.kind = k
            · exact hk
            · rw [if_neg hk] at h
              simp at h
        · obtain ⟨t, c', rfl, hget, hk⟩ := (ih (s + 1) i).mp h
          exact ⟨t + 1, c', by omega, by simpa using hget, hk⟩
      · rintro ⟨t, c', hi, hget, hk⟩
        cases t with
        | zero =>
            left
            simp only [List.getElem?_cons_zero, Option.some_inj] at hget
            subst hget
            rw [if_pos hk]
            simp [hi]
        | succ t =>
            right
            refine (ih (s + 1) i).mpr ⟨t, c', by omega, by simpa using hget, hk⟩

/-- Membership in a `get_indices` list, at offset `0`: exactly the
positions whose component has the tested class. -/
lemma kindIdx_mem_zero (k : CompKind) (l : List Comp) (i : ℕ) :
    i ∈ kindIdx k l 0 ↔ ∃ c, l[i]? = some c ∧ c.kind = k := by
  rw [kindIdx_mem]
  constructor
  · rintro ⟨t, c, rfl, h1, h2⟩
    exact ⟨c, by simpa using h1, h2⟩
  · rintro ⟨c, h1, h2⟩
    exact ⟨i, c, by omega, h1, h2⟩

/-! ## Projections used to state cell formulas -/

def defaultComp : Comp := ⟨.generic, "", 0, 0, none⟩

/-- The component at position `j` (default only ever used out of range). -/
def compAt (components : List Comp) (j : ℕ) : Comp := components[j]?.getD defaultComp

def kindAt (components : List Comp) (j : ℕ) : CompKind := (compAt components j).kind

def nameAt (components : List Comp) (j : ℕ) : String := (compAt components j).name

/-- The real value of the component at `j` (`0` when absent or complex). -/
def valAt (components : List Comp) (j : ℕ) : ℚ :=
  match (compAt components j).value with
  | some (.real q) => q
  | _ => 0

lemma kindIdx_mem_iff (k : CompKind) (l : List Comp) (a : ℕ) :
    a ∈ kindIdx k l 0 ↔ a < l.length ∧ kindAt l a = k := by
  rw [kindIdx_mem_zero]
  constructor
  · rintro ⟨c, h1, h2⟩
    have ha : a < l.length := by
      by_contra ha
      rw [List.getElem?_eq_none (by omega)] at h1
      exact Option.noConfusion h1
    refine ⟨ha, ?_⟩
    unfold kindAt compAt
    rw [h1]
    exact h2
  · rintro ⟨ha, h2⟩
    refine ⟨l[a], List.getElem?_eq_getElem ha, ?_⟩
    unfold kindAt compAt at h2
    rwa [List.getElem?_eq_getElem ha] at h2

/-! ## Helper lemmas: branch-law builders -/

/-- Values are present and real (storable into a float array) at every
component of the given kind. -/
def realValued (components : List Comp) (k : CompKind) : Prop :=
  ∀ c ∈ components, c.kind = k → (floatVal c).isSome

instance (components : List Comp) (k : CompKind) :
    Decidable (realValued components k) := by
  unfold realValued
  infer_instance

lemma floatVal_eq_some {c : Comp} {q : ℚ} (h : floatVal c = some q) :
    c.value = some (.real q) := by
  unfold floatVal at h
  cases hv : c.value with
  | none =>
      rw [hv] at h
      exact Option.noConfusion h
  | some v =>
      cases v with
      | real r =>
          rw [hv] at h
          simp only [Option.some_inj] at h
          rw [h]
      | cplx x y =>
          rw [hv] at h
          exact Option.noConfusion h

lemma realValued_exists {comps : List Comp} {k : CompKind} (h : realValued comps k) :
    ∀ c ∈ comps, c.kind = k → ∃ q, c.value = some (.real q) := by
  intro c hc hk
  obtain ⟨q, hq⟩ := Option.isSome_iff_exists.mp (h c hc hk)
  exact ⟨q, floatVal_eq_some hq⟩

lemma floatVal_at {comps : List Comp} {k : CompKind} (h : realValued comps k)
    {a : ℕ} (ha : a < comps.length) (hk : kindAt comps a = k) :
    comps[a]?.bind floatVal = some (valAt comps a) := by
  rw [List.getElem?_eq_getElem ha, Option.some_bind]
  obtain ⟨q, hq⟩ := realValued_exists h comps[a] (List.getElem_mem ha) (by
    unfold kindAt compAt at hk
    rwa [List.getElem?_eq_getElem ha] at hk)
  unfold floatVal valAt compAt
  rw [hq, List.getElem?_eq_getElem ha, Option.getD_some, hq]

lemma get_resistance_matrix_spec (comps : List Comp) (h : realValued comps .res) :
    ∃ M, get_resistance_matrix comps comps.length (kindIdx .res comps 0)
        (kindIdx .isrc comps 0) (kindIdx .cap comps 0) = some M ∧
      M.rows = comps.length ∧ M.cols = comps.length ∧
      (∀ a b, a ≠ b → M.entry a b = 0) ∧
      (∀ a, M.entry a a =
        (if kindAt comps a = .res then valAt comps a else 0)
        + (if kindAt comps a = .isrc then 1 else 0)
        + (if kindAt comps a = .cap then 1 else 0)) := by
  obtain ⟨gr, hgr, hgrbase, hgrdiag⟩ := diagAssign_spec comps.length
    (fun i => comps[i]?.bind floatVal) (kindIdx .res comps 0) (fun _ _ => 0)
    (by
      intro i hi
      obtain ⟨hlt, hk⟩ := (kindIdx_mem_iff _ _ _).mp hi
      exact ⟨hlt, by simp [floatVal_at h hlt hk]⟩)
  obtain ⟨gi, hgi, hgibase, hgidiag⟩ := diagAssign_spec comps.length
    (fun _ => some (1 : ℚ)) (kindIdx .isrc comps 0) (fun _ _ => 0)
    (fun i hi => ⟨((kindIdx_mem_iff _ _ _).mp hi).1, rfl⟩)
  obtain ⟨gc, hgc, hgcbase, hgcdiag⟩ := diagAssign_spec comps.length
    (fun _ => some (1 : ℚ)) (kindIdx .cap comps 0) (fun _ _ => 0)
    (fun i hi => ⟨((kindIdx_mem_iff _ _ _).mp hi).1, rfl⟩)
  refine ⟨⟨comps.length, comps.length, fun a b => gr a b + gi a b + gc a b⟩,
    by simp [get_resistance_matrix, hgr, hgi, hgc], rfl, rfl, ?_, ?_⟩
  · intro a b hab
    show gr a b + gi a b + gc a b = 0
    rw [hgrbase a b (Or.inl hab), hgibase a b (Or.inl hab), hgcbase a b (Or.inl hab)]
    norm_num
  · intro a
    show gr a a + gi a a + gc a a = _
    congr 1
    · congr 1
      · by_cases hm : a ∈ kindIdx .res comps 0
        · obtain ⟨hlt, hk⟩ := (kindIdx_mem_iff _ _ _).mp hm
          rw [hgrdiag a _ hm (floatVal_at h hlt hk), if_pos hk]
        · rw [hgrbase a a (Or.inr hm),
            if_neg (fun hk : kindAt comps a = .res => hm (by
              refine (kindIdx_mem_iff _ _ _).mpr ⟨?_, hk⟩
              by_contra hlt
              unfold kindAt compAt at hk
              rw [List.getElem?_eq_none (by omega)] at hk
              exact CompKind.noConfusion hk))]
      · by_cases hm : a ∈ kindIdx .isrc comps 0
        · rw [hgidiag a 1 hm rfl, if_pos ((kindIdx_mem_iff _ _ _).mp hm).2]
        · rw [hgibase a a (Or.inr hm),
            if_neg (fun hk : kindAt comps a = .isrc => hm (by
              refine (kindIdx_mem_iff _ _ _).mpr ⟨?_, hk⟩
              by_contra hlt
              unfold kindAt compAt at hk
              rw [List.getElem?_eq_none (by omega)] at hk
              exact CompKind.noConfusion hk))]
    · by_cases hm : a ∈ kindIdx .cap comps 0
      · rw [hgcdiag a 1 hm rfl, if_pos ((kindIdx_mem_iff _ _ _).mp hm).2]
      · rw [hgcbase a a (Or.inr hm),
          if_neg (fun hk : kindAt comps a = .cap => hm (by
            refine (kindIdx_mem_iff _ _ _).mpr ⟨?_, hk⟩
            by_contra hlt
            unfold kindAt compAt at hk
            rw [List.getElem?_eq_none (by omega)] at hk
            exact CompKind.noConfusion hk))]

lemma kindAt_mem_kindIdx {l : List Comp} {a : ℕ} {k : CompKind}
    (hk : kindAt l a = k) (hne : k ≠ .generic) : a ∈ kindIdx k l 0 := by
  refine (kindIdx_mem_iff _ _ _).mpr ⟨?_, hk⟩
  by_contra hlt
  unfold kindAt compAt at hk
  rw [List.getElem?_eq_none (by omega)] at hk
  exact hne hk.symm


/-- A `diagAssign` over the index list of one component kind, described as
a single conditional with display value `w`. -/
lemma diagAssign_kind {α : Type} (comps : List Comp) (k : CompKind) (hne : k ≠ .generic)
    (z : α) (fv : ℕ → Option α) (w : ℕ → α)
    (hfw : ∀ a, a < comps.length → kindAt comps a = k → fv a = some (w a)) :
    ∃ g, diagAssign (fun _ _ => z) comps.length fv (kindIdx k comps 0) = some g ∧
      ∀ a b, g a b = if a = b ∧ kindAt comps a = k then w a else z := by
  obtain ⟨g, hg, hbase, hdiag⟩ := diagAssign_spec comps.length fv (kindIdx k comps 0)
    (fun _ _ => z) (by
      intro i hi
      obtain ⟨hlt, hk⟩ := (kindIdx_mem_iff _ _ _).mp hi
      exact ⟨hlt, by rw [hfw i hlt hk]; rfl⟩)
  refine ⟨g, hg, ?_⟩
  intro a b
  by_cases hab : a = b ∧ kindAt comps a = k
  · obtain ⟨rfl, hk2⟩ := hab
    rw [if_pos ⟨rfl, hk2⟩]
    have hm := kindAt_mem_kindIdx hk2 hne
    have hlt := ((kindIdx_mem_iff _ _ _).mp hm).1
    exact hdiag a (w a) hm (hfw a hlt hk2)
  · rw [if_neg hab]
    by_cases heq : a = b
    · subst heq
      have hk2 : kindAt comps a ≠ k := fun h => hab ⟨rfl, h⟩
      exact hbase a a (Or.inr (fun hm => hk2 ((kindIdx_mem_iff _ _ _).mp hm).2))
    · exact hbase a b (Or.inl heq)

lemma name_map_at (comps : List Comp) (a : ℕ) (ha : a < comps.length) :
    comps[a]?.map (·.name) = some (nameAt comps a) := by
  unfold nameAt compAt
  rw [List.getElem?_eq_getElem ha]
  rfl

lemma get_resistance_matrix_str_spec (comps : List Comp) :
    ∃ M, get_resistance_matrix_str comps comps.length (kindIdx .res comps 0)
        (kindIdx .isrc comps 0) (kindIdx .cap comps 0) = some M ∧
      M.rows = comps.length ∧ M.cols = comps.length ∧
      (∀ a b, a ≠ b → M.entry a b = "") ∧
      (∀ a, M.entry a a =
        (if kindAt comps a = .res then nameAt comps a else "")
        ++ (if kindAt comps a = .isrc then "1" else "")
        ++ (if kindAt comps a = .cap then "1" else "")) := by
  obtain ⟨gr, hgr, hgrf⟩ := diagAssign_kind comps .res (by decide) ""
    (fun i => comps[i]?.map (·.name)) (nameAt comps)
    (fun a ha _ => name_map_at comps a ha)
  obtain ⟨gi, hgi, hgif⟩ := diagAssign_kind comps .isrc (by decide) ""
    (fun _ => some "1") (fun _ => "1") (fun _ _ _ => rfl)
  obtain ⟨gc, hgc, hgcf⟩ := diagAssign_kind comps .cap (by decide) ""
    (fun _ => some "1") (fun _ => "1") (fun _ _ _ => rfl)
  refine ⟨⟨comps.length, comps.length, fun a b => gr a b ++ gi a b ++ gc a b⟩,
    by simp [get_resistance_matrix_str, hgr, hgi, hgc], rfl, rfl, ?_, ?_⟩
  · intro a b hab
    show gr a b ++ gi a b ++ gc a b = ""
    rw [hgrf, hgif, hgcf]
    simp [hab]
  · intro a
    show gr a a ++ gi a a ++ gc a a = _
    rw [hgrf, hgif, hgcf]
    simp

lemma get_conductance_matrix_spec (comps : List Comp) :
    ∃ M, get_conductance_matrix comps.length (kindIdx .res comps 0)
        (kindIdx .vsrc comps 0) (kindIdx .ind comps 0) = some M ∧
      M.rows = comps.length ∧ M.cols = comps.length ∧
      (∀ a b, a ≠ b → M.entry a b = 0) ∧
      (∀ a, M.entry a a =
        (if kindAt comps a = .res then -1 else 0)
        + (if kindAt comps a = .vsrc then 1 else 0)
        + (if kindAt comps a = .ind then 1 else 0)) := by
  obtain ⟨gr, hgr, hgrf⟩ := diagAssign_kind comps .res (by decide) (0 : ℚ)
    (fun _ => some (-1)) (fun _ => -1) (fun _ _ _ => rfl)
  obtain ⟨gv, hgv, hgvf⟩ := diagAssign_kind comps .vsrc (by decide) (0 : ℚ)
    (fun _ => some 1) (fun _ => 1) (fun _ _ _ => rfl)
  obtain ⟨gl, hgl, hglf⟩ := diagAssign_kind comps .ind (by decide) (0 : ℚ)
    (fun _ => some 1) (fun _ => 1) (fun _ _ _ => rfl)
  refine ⟨⟨comps.length, comps.length, fun a b => gr a b + gv a b + gl a b⟩,
    by simp [get_conductance_matrix, hgr, hgv, hgl], rfl, rfl, ?_, ?_⟩
  · intro a b hab
    show gr a b + gv a b + gl a b = 0
    rw [hgrf, hgvf, hglf]
    simp [hab]
  · intro a
    show gr a a + gv a a + gl a a = _
    rw [hgrf, hgvf, hglf]
    simp

lemma get_conductance_matrix_str_spec (comps : List Comp) :
    ∃ M, get_conductance_matrix_str comps.length (kindIdx .res comps 0)
        (kindIdx .vsrc comps 0) (kindIdx .ind comps 0) = some M ∧
      M.rows = comps.length ∧ M.cols = comps.length ∧
      (∀ a b, a ≠ b → M.entry a b = "") ∧
      (∀ a, M.entry a a =
        (if kindAt comps a = .res then "-1" else "")
        ++ (if kindAt comps a = .vsrc then "1" else "")
        ++ (if kindAt comps a = .ind then "1" else "")) := by
  obtain ⟨gr, hgr, hgrf⟩ := diagAssign_kind comps .res (by decide) ""
    (fun _ => some "-1") (fun _ => "-1") (fun _ _ _ => rfl)
  obtain ⟨gv, hgv, hgvf⟩ := diagAssign_kind comps .vsrc (by decide) ""
    (fun _ => some "1") (fun _ => "1") (fun _ _ _ => rfl)
  obtain ⟨gl, hgl, hglf⟩ := diagAssign_kind comps .ind (by decide) ""
    (fun _ => some "1") (fun _ => "1") (fun _ _ _ => rfl)
  refine ⟨⟨comps.length, comps.length, fun a b => gr a b ++ gv a b ++ gl a b⟩,
    by simp [get_conductance_matrix_str, hgr, hgv, hgl], rfl, rfl, ?_, ?_⟩
  · intro a b hab
    show gr a b ++ gv a b ++ gl a b = ""
    rw [hgrf, hgvf, hglf]
    simp [hab]
  · intro a
    show gr a a ++ gv a a ++ gl a a = _
    rw [hgrf, hgvf, hglf]
    simp

lemma neg_floatVal_at {comps : List Comp} {k : CompKind} (h : realValued comps k)
    {a : ℕ} (ha : a < comps.length) (hk : kindAt comps a = k) :
    comps[a]?.bind (fun c => (floatVal c).map (fun q => -q)) = some (-valAt comps a) := by
  rw [List.getElem?_eq_getElem ha, Option.some_bind]
  obtain ⟨q, hq⟩ := realValued_exists h comps[a] (List.getElem_mem ha) (by
    unfold kindAt compAt at hk
    rwa [List.getElem?_eq_getElem ha] at hk)
  unfold floatVal valAt compAt
  rw [hq, List.getElem?_eq_getElem ha, Option.getD_some, hq]
  rfl

lemma dashname_map_at (comps : List Comp) (a : ℕ) (ha : a < comps.length) :
    comps[a]?.map (fun c => "-" ++ c.name) = some ("-" ++ nameAt comps a) := by
  unfold nameAt compAt
  rw [List.getElem?_eq_getElem ha]
  rfl

lemma get_inductance_matrix_spec (comps : List Comp) (h : realValued comps .ind) :
    ∃ M, get_inductance_matrix comps comps.length (kindIdx .ind comps 0) = some M ∧
      M.rows = comps.length ∧ M.cols = comps.length ∧
      (∀ a b, a ≠ b → M.entry a b = 0) ∧
      (∀ a, M.entry a a = if kindAt comps a = .ind then -valAt comps a else 0) := by
  obtain ⟨gl, hgl, hglf⟩ := diagAssign_kind comps .ind (by decide) (0 : ℚ)
    (fun i => comps[i]?.bind (fun c => (floatVal c).map (fun q => -q)))
    (fun a => -valAt comps a) (fun a ha hk => neg_floatVal_at h ha hk)
  refine ⟨⟨comps.length, comps.length, gl⟩,
    by simp [get_inductance_matrix, hgl], rfl, rfl, ?_, ?_⟩
  · intro a b hab
    show gl a b = 0
    rw [hglf]
    simp [hab]
  · intro a
    show gl a a = _
    rw [hglf]
    simp

lemma get_inductance_matrix_str_spec (comps : List Comp) :
    ∃ M, get_inductance_matrix_str comps comps.length (kindIdx .ind comps 0) = some M ∧
      M.rows = comps.length ∧ M.cols = comps.length ∧
      (∀ a b, a ≠ b → M.entry a b = "") ∧
      (∀ a, M.entry a a =
        if kindAt comps a = .ind then "-" ++ nameAt comps a else "") := by
  obtain ⟨gl, hgl, hglf⟩ := diagAssign_kind comps .ind (by decide) ""
    (fun i => comps[i]?.map (fun c => "-" ++ c.name)) (fun a => "-" ++ nameAt comps a)
    (fun a ha _ => dashname_map_at comps a ha)
  refine ⟨⟨comps.length, comps.length, gl⟩,
    by simp [get_inductance_matrix_str, hgl], rfl, rfl, ?_, ?_⟩
  · intro a b hab
    show gl a b = ""
    rw [hglf]
    simp [hab]
  · intro a
    show gl a a = _
    rw [hglf]
    simp

lemma get_capacitance_matrix_spec (comps : List Comp) (h : realValued comps .cap) :
    ∃ M, get_capacitance_matrix comps comps.length (kindIdx .cap comps 0) = some M ∧
      M.rows = comps.length ∧ M.cols = comps.length ∧
      (∀ a b, a ≠ b → M.entry a b = 0) ∧
      (∀ a, M.entry a a = if kindAt comps a = .cap then -valAt comps a else 0) := by
  obtain ⟨gc, hgc, hgcf⟩ := diagAssign_kind comps .cap (by decide) (0 : ℚ)
    (fun i => comps[i]?.bind (fun cc => (floatVal cc).map (fun q => -q)))
    (fun a => -valAt comps a) (fun a ha hk => neg_floatVal_at h ha hk)
  refine ⟨⟨comps.length, comps.length, gc⟩,
    by simp [get_capacitance_matrix, hgc], rfl, rfl, ?_, ?_⟩
  · intro a b hab
    show gc a b = 0
    rw [hgcf]
    simp [hab]
  · intro a
    show gc a a = _
    rw [hgcf]
    simp

lemma get_capacitance_matrix_str_spec (comps : List Comp) :
    ∃ M, get_capacitance_matrix_str comps comps.length (kindIdx .cap comps 0) = some M ∧
      M.rows = comps.length ∧ M.cols = comps.length ∧
      (∀ a b, a ≠ b → M.entry a b = "") ∧
      (∀ a, M.entry a a =
        if kindAt comps a = .cap then "-" ++ nameAt comps a else "") := by
  obtain ⟨gc, hgc, hgcf⟩ := diagAssign_kind comps .cap (by decide) ""
    (fun i => comps[i]?.map (fun c => "-" ++ c.name)) (fun a => "-" ++ nameAt comps a)
    (fun a ha _ => dashname_map_at comps a ha)
  refine ⟨⟨comps.length, comps.length, gc⟩,
    by simp [get_capacitance_matrix_str, hgc], rfl, rfl, ?_, ?_⟩
  · intro a b hab
    show gc a b = ""
    rw [hgcf]
    simp [hab]
  · intro a
    show gc a a = _
    rw [hgcf]
    simp

/-! ## Helper lemmas: source (RHS) vector -/

lemma rhsLoop_real_spec (comps : List Comp) (nedges : ℕ) (s : ℚ) :
    ∀ (ind : List ℕ) (t : RhsTrack),
    (∀ i ∈ ind, i < nedges ∧ i < comps.length ∧
      ∃ q, (compAt comps i).value = some (.real q)) →
    ∃ t2, rhsLoop comps nedges s t ind = some t2 ∧
      ∀ k, t2.cur k = if k ∈ ind then ⟨s * valAt comps k, 0⟩ else t.cur k := by
  intro ind
  induction ind with
  | nil =>
      intro t _
      exact ⟨t, rfl, fun k => by simp⟩
  | cons i rest ih =>
      intro t h
      obtain ⟨hie, hic, q, hq⟩ := h i (List.mem_cons_self _ _)
      have hq' : comps[i].value = some (.real q) := by
        unfold compAt at hq
        rwa [List.getElem?_eq_getElem hic, Option.getD_some] at hq
      have hval : valAt comps i = q := by
        unfold valAt compAt
        rw [List.getElem?_eq_getElem hic, Option.getD_some, hq']
      obtain ⟨t2, ht2, hcur⟩ := ih
        { t with cur := fun k => if k = i then ⟨s * q, 0⟩ else t.cur k }
        (fun j hj => h j (List.mem_cons_of_mem i hj))
      refine ⟨t2, ?_, ?_⟩
      · simpa [rhsLoop, List.getElem?_eq_getElem hic, hq', hie] using ht2
      · intro k
        rw [hcur k]
        by_cases hr : k ∈ rest
        · rw [if_pos hr, if_pos (List.mem_cons_of_mem i hr)]
        · by_cases hk : k = i
          · subst hk
            simp [hr, hval]
          · simp [hr, hk]

lemma realValued_rhs_hyp {comps : List Comp} {k : CompKind} (h : realValued comps k) :
    ∀ i ∈ kindIdx k comps 0, i < comps.length ∧ i < comps.length ∧
      ∃ q, (compAt comps i).value = some (.real q) := by
  intro i hi
  obtain ⟨hlt, hk⟩ := (kindIdx_mem_iff _ _ _).mp hi
  refine ⟨hlt, hlt, ?_⟩
  have : compAt comps i = comps[i] := by
    unfold compAt
    rw [List.getElem?_eq_getElem hlt, Option.getD_some]
  rw [this]
  exact realValued_exists h comps[i] (List.getElem_mem hlt) (by
    unfold kindAt compAt at hk
    rwa [List.getElem?_eq_getElem hlt, Option.getD_some] at hk)

/-- `kindAt` of one of the five real kinds forces the index in range. -/
lemma kindAt_lt {comps : List Comp} {a : ℕ} {k : CompKind}
    (hk : kindAt comps a = k) (hne : k ≠ .generic) : a < comps.length := by
  by_contra hlt
  unfold kindAt compAt at hk
  rw [List.getElem?_eq_none (by omega)] at hk
  exact hne (hk ▸ rfl)

lemma get_rhs_real_spec (comps : List Comp)
    (hi : realValued comps .isrc) (hv : realValued comps .vsrc) :
    ∃ v, get_rhs comps comps.length (kindIdx .isrc comps 0)
        (kindIdx .vsrc comps 0) = some v ∧
      v.rows = comps.length ∧ v.cols = 1 ∧
      ∀ i j, v.entry i j =
        ⟨(if kindAt comps i = .isrc then valAt comps i else 0)
          - (if kindAt comps i = .vsrc then valAt comps i else 0), 0⟩ := by
  obtain ⟨ti, hti, hicur⟩ := rhsLoop_real_spec comps comps.length 1
    (kindIdx .isrc comps 0) rhsInit (realValued_rhs_hyp hi)
  obtain ⟨tv, htv, hvcur⟩ := rhsLoop_real_spec comps comps.length (-1)
    (kindIdx .vsrc comps 0) rhsInit (realValued_rhs_hyp hv)
  refine ⟨⟨comps.length, 1, fun i _ => qcAdd (tv.cur i) (ti.cur i)⟩,
    by simp [get_rhs, hti, htv], rfl, rfl, ?_⟩
  intro i j
  show qcAdd (tv.cur i) (ti.cur i) = _
  rw [hvcur i, hicur i]
  have hmi : (i ∈ kindIdx .isrc comps 0) ↔ kindAt comps i = .isrc := by
    rw [kindIdx_mem_iff]
    exact ⟨fun h => h.2, fun h => ⟨kindAt_lt h (by decide), h⟩⟩
  have hmv : (i ∈ kindIdx .vsrc comps 0) ↔ kindAt comps i = .vsrc := by
    rw [kindIdx_mem_iff]
    exact ⟨fun h => h.2, fun h => ⟨kindAt_lt h (by decide), h⟩⟩
  by_cases h1 : kindAt comps i = .isrc <;> by_cases h2 : kindAt comps i = .vsrc
  · rw [h1] at h2
    exact CompKind.noConfusion h2
  · rw [if_pos (hmi.mpr h1), if_neg (fun hm => h2 (hmv.mp hm)), if_pos h1, if_neg h2]
    unfold qcAdd rhsInit
    simp
  · rw [if_neg (fun hm => h1 (hmi.mp hm)), if_pos (hmv.mpr h2), if_neg h1, if_pos h2]
    unfold qcAdd rhsInit
    simp
  · rw [if_neg (fun hm => h1 (hmi.mp hm)), if_neg (fun hm => h2 (hmv.mp hm)),
      if_neg h1, if_neg h2]
    unfold qcAdd rhsInit
    simp

lemma get_rhs_str_spec (comps : List Comp) :
    ∃ v, get_rhs_str comps comps.length (kindIdx .isrc comps 0)
        (kindIdx .vsrc comps 0) = some v ∧
      v.rows = comps.length ∧ v.cols = 1 ∧
      ∀ i j, v.entry i j =
        (if kindAt comps i = .vsrc then "-" ++ nameAt comps i else "")
        ++ (if kindAt comps i = .isrc then nameAt comps i else "") := by
  obtain ⟨gi, hgi, hgif⟩ := diagAssign_kind comps .isrc (by decide) ""
    (fun i => comps[i]?.map (·.name)) (nameAt comps)
    (fun a ha _ => name_map_at comps a ha)
  obtain ⟨gv, hgv, hgvf⟩ := diagAssign_kind comps .vsrc (by decide) ""
    (fun i => comps[i]?.map (fun c => "-" ++ c.name)) (fun a => "-" ++ nameAt comps a)
    (fun a ha _ => dashname_map_at comps a ha)
  refine ⟨⟨comps.length, 1, fun i _ => gv i i ++ gi i i⟩,
    by simp [get_rhs_str, hgi, hgv], rfl, rfl, ?_⟩
  intro i j
  show gv i i ++ gi i i = _
  rw [hgvf, hgif]
  simp

/-! ## Helper lemmas: tableau assembly -/

/-- The full cell-level description of the three artifacts of
`get_tableau_matrix` on inputs of the pipeline shapes. -/
def TableauCells (A R G L C fv : NpMat ℚ) (n e : ℕ) : Prop :=
    (get_tableau_matrix A R G L C fv n e).1.rows = (n - 1) + e + e ∧
    (get_tableau_matrix A R G L C fv n e).1.cols = e + e + (n - 1) ∧
    (get_tableau_matrix A R G L C fv n e).2.1.rows = (e + (n - 1)) + e ∧
    (get_tableau_matrix A R G L C fv n e).2.1.cols = 2 * e + (n - 1) ∧
    (get_tableau_matrix A R G L C fv n e).2.2.rows = (n - 1) + e + e ∧
    (get_tableau_matrix A R G L C fv n e).2.2.cols = 1 ∧
    (∀ i j, i < n - 1 →
      (j < e → (get_tableau_matrix A R G L C fv n e).1.entry i j = A.entry i j) ∧
      (e ≤ j → j < e + e → (get_tableau_matrix A R G L C fv n e).1.entry i j = 0) ∧
      (e + e ≤ j → (get_tableau_matrix A R G L C fv n e).1.entry i j = 0)) ∧
    (∀ i j, n - 1 ≤ i → i < n - 1 + e →
      (j < e → (get_tableau_matrix A R G L C fv n e).1.entry i j = 0) ∧
      (e ≤ j → j < e + e → (get_tableau_matrix A R G L C fv n e).1.entry i j =
        if i - (n - 1) = j - e then -1 else 0) ∧
      (e + e ≤ j → (get_tableau_matrix A R G L C fv n e).1.entry i j =
        A.entry (j - e - e) (i - (n - 1)))) ∧
    (∀ i j, n - 1 + e ≤ i → i < n - 1 + e + e →
      (j < e → (get_tableau_matrix A R G L C fv n e).1.entry i j =
        R.entry (i - (n - 1) - e) j) ∧
      (e ≤ j → j < e + e → (get_tableau_matrix A R G L C fv n e).1.entry i j =
        G.entry (i - (n - 1) - e) (j - e)) ∧
      (e + e ≤ j → (get_tableau_matrix A R G L C fv n e).1.entry i j = 0)) ∧
    (∀ i j, i < e + (n - 1) → (get_tableau_matrix A R G L C fv n e).2.1.entry i j = 0) ∧
    (∀ i j, e + (n - 1) ≤ i →
      (j < e → (get_tableau_matrix A R G L C fv n e).2.1.entry i j =
        L.entry (i - (e + (n - 1))) j) ∧
      (e ≤ j → j < e + e → (get_tableau_matrix A R G L C fv n e).2.1.entry i j =
        C.entry (i - (e + (n - 1))) (j - e)) ∧
      (e + e ≤ j → (get_tableau_matrix A R G L C fv n e).2.1.entry i j = 0)) ∧
    (∀ i j, i < n - 1 + e → (get_tableau_matrix A R G L C fv n e).2.2.entry i j = 0) ∧
    (∀ i j, n - 1 + e ≤ i → (get_tableau_matrix A R G L C fv n e).2.2.entry i j =
      fv.entry (i - (n - 1) - e) j)

lemma get_tableau_matrix_spec (A R G L C fv : NpMat ℚ) (n e : ℕ)
    (hA1 : A.rows = n - 1) (hA2 : A.cols = e)
    (hR1 : R.rows = e) (hR2 : R.cols = e)
    (hG1 : G.rows = e) (hG2 : G.cols = e)
    (hL1 : L.rows = e) (hL2 : L.cols = e)
    (hC1 : C.rows = e) (hC2 : C.cols = e)
    (hf1 : fv.rows = e) (hf2 : fv.cols = 1) :
    TableauCells A R G L C fv n e := by
  unfold TableauCells
  obtain ⟨ar, ac, af⟩ := A
  obtain ⟨rr, rc, rf⟩ := R
  obtain ⟨gr, gc, gf⟩ := G
  obtain ⟨lr, lc, lf⟩ := L
  obtain ⟨cr, cc, cf⟩ := C
  obtain ⟨fr, fc, ff⟩ := fv
  simp only at hA1 hA2 hR1 hR2 hG1 hG2 hL1 hL2 hC1 hC2 hf1 hf2
  subst hA1 hA2 hR1 hR2 hG1 hG2 hL1 hL2 hC1 hC2 hf1 hf2
  refine ⟨rfl, rfl, rfl, rfl, rfl, rfl, ?_, ?_, ?_, ?_, ?_, ?_, ?_⟩
  · intro i j hi
    refine ⟨?_, ?_, ?_⟩ <;> intros <;>
      simp only [get_tableau_matrix, vblock3, hblock3, vblock2, npZeros, npNegEye, npT] <;>
      split_ifs <;> first | rfl | omega
  · intro i j hi1 hi2
    refine ⟨?_, ?_, ?_⟩ <;> intros <;>
      simp only [get_tableau_matrix, vblock3, hblock3, vblock2, npZeros, npNegEye, npT] <;>
      split_ifs <;> first | rfl | omega
  · intro i j hi1 hi2
    refine ⟨?_, ?_, ?_⟩ <;> intros <;>
      simp only [get_tableau_matrix, vblock3, hblock3, vblock2, npZeros, npNegEye, npT] <;>
      split_ifs <;> first | rfl | omega
  · intro i j hi
    simp only [get_tableau_matrix, vblock3, hblock3, vblock2, npZeros, npNegEye, npT]
    split_ifs <;> first | rfl | omega
  · intro i j hi
    refine ⟨?_, ?_, ?_⟩ <;> intros <;>
      simp only [get_tableau_matrix, vblock3, hblock3, vblock2, npZeros, npNegEye, npT] <;>
      split_ifs <;> first | rfl | omega
  · intro i j hi
    simp only [get_tableau_matrix, vblock3, hblock3, vblock2, npZeros, npNegEye, npT]
    split_ifs <;> first | rfl | omega
  · intro i j hi
    simp only [get_tableau_matrix, vblock3, hblock3, vblock2, npZeros, npNegEye, npT]
    split_ifs <;> first | rfl | omega

lemma get_tableau_matrix_str_spec (A R G L C fv : NpMat String) (n e : ℕ)
    (hA1 : A.rows = n - 1) (hA2 : A.cols = e)
    (hR1 : R.rows = e) (hR2 : R.cols = e)
    (hG1 : G.rows = e) (hG2 : G.cols = e)
    (hL1 : L.rows = e) (hL2 : L.cols = e)
    (hC1 : C.rows = e) (hC2 : C.cols = e)
    (hf1 : fv.rows = e) (hf2 : fv.cols = 1) :
    (get_tableau_matrix_str A R G L C fv n e).1.rows = (n - 1) + e + e ∧
    (get_tableau_matrix_str A R G L C fv n e).1.cols = e + e + (n - 1) ∧
    (get_tableau_matrix_str A R G L C fv n e).2.1.rows = (e + (n - 1)) + e ∧
    (get_tableau_matrix_str A R G L C fv n e).2.1.cols = 2 * e + (n - 1) ∧
    (get_tableau_matrix_str A R G L C fv n e).2.2.rows = (n - 1) + e + e ∧
    (get_tableau_matrix_str A R G L C fv n e).2.2.cols = 1 ∧
    (∀ i j, i < n - 1 →
      (j < e → (get_tableau_matrix_str A R G L C fv n e).1.entry i j =
        clean1 (A.entry i j)) ∧
      (e ≤ j → j < e + e → (get_tableau_matrix_str A R G L C fv n e).1.entry i j = "0") ∧
      (e + e ≤ j → (get_tableau_matrix_str A R G L C fv n e).1.entry i j = "0")) ∧
    (∀ i j, n - 1 ≤ i → i < n - 1 + e →
      (j < e → (get_tableau_matrix_str A R G L C fv n e).1.entry i j = "0") ∧
      (e ≤ j → j < e + e → (get_tableau_matrix_str A R G L C fv n e).1.entry i j =
        if i - (n - 1) = j - e then "-1" else "0") ∧
      (e + e ≤ j → (get_tableau_matrix_str A R G L C fv n e).1.entry i j =
        clean1 (A.entry (j - e - e) (i - (n - 1))))) ∧
    (∀ i j, n - 1 + e ≤ i → i < n - 1 + e + e →
      (j < e → (get_tableau_matrix_str A R G L C fv n e).1.entry i j =
        clean1 (R.entry (i - (n - 1) - e) j)) ∧
      (e ≤ j → j < e + e → (get_tableau_matrix_str A R G L C fv n e).1.entry i j =
        clean1 (G.entry (i - (n - 1) - e) (j - e))) ∧
      (e + e ≤ j → (get_tableau_matrix_str A R G L C fv n e).1.entry i j = "0")) ∧
    (∀ i j, i < e + (n - 1) →
      (get_tableau_matrix_str A R G L C fv n e).2.1.entry i j = "0") ∧
    (∀ i j, e + (n - 1) ≤ i →
      (j < e → (get_tableau_matrix_str A R G L C fv n e).2.1.entry i j =
        clean1 (L.entry (i - (e + (n - 1))) j)) ∧
      (e ≤ j → j < e + e → (get_tableau_matrix_str A R G L C fv n e).2.1.entry i j =
        clean1 (C.entry (i - (e + (n - 1))) (j - e))) ∧
      (e + e ≤ j → (get_tableau_matrix_str A R G L C fv n e).2.1.entry i j = "0")) ∧
    (∀ i j, i < n - 1 + e →
      (get_tableau_matrix_str A R G L C fv n e).2.2.entry i j = "0") ∧
    (∀ i j, n - 1 + e ≤ i → (get_tableau_matrix_str A R G L C fv n e).2.2.entry i j =
      cleanb (cleanb (fv.entry (i - (n - 1) - e) j))) := by
  obtain ⟨ar, ac, af⟩ := A
  obtain ⟨rr, rc, rf⟩ := R
  obtain ⟨gr, gc, gf⟩ := G
  obtain ⟨lr, lc, lf⟩ := L
  obtain ⟨cr, cc, cf⟩ := C
  obtain ⟨fr, fc, ff⟩ := fv
  simp only at hA1 hA2 hR1 hR2 hG1 hG2 hL1 hL2 hC1 hC2 hf1 hf2
  subst hA1 hA2 hR1 hR2 hG1 hG2 hL1 hL2 hC1 hC2 hf1 hf2
  refine ⟨rfl, rfl, rfl, rfl, rfl, rfl, ?_, ?_, ?_, ?_, ?_, ?_, ?_⟩
  · intro i j hi
    refine ⟨?_, ?_, ?_⟩ <;> intros <;>
      simp only [get_tableau_matrix_str, vblock3, hblock3, vblock2, npZerosStr,
        npNegEyeStr, npT, npMap] <;>
      split_ifs <;> first | rfl | omega | decide
  · intro i j hi1 hi2
    refine ⟨?_, ?_, ?_⟩ <;> intros <;>
      simp only [get_tableau_matrix_str, vblock3, hblock3, vblock2, npZerosStr,
        npNegEyeStr, npT, npMap] <;>
      split_ifs <;> first | rfl | omega | decide
  · intro i j hi1 hi2
    refine ⟨?_, ?_, ?_⟩ <;> intros <;>
      simp only [get_tableau_matrix_str, vblock3, hblock3, vblock2, npZerosStr,
        npNegEyeStr, npT, npMap] <;>
      split_ifs <;> first | rfl | omega | decide
  · intro i j hi
    simp only [get_tableau_matrix_str, vblock3, hblock3, vblock2, npZerosStr,
      npNegEyeStr, npT, npMap]
    split_ifs <;> first | rfl | omega | decide
  · intro i j hi
    refine ⟨?_, ?_, ?_⟩ <;> intros <;>
      simp only [get_tableau_matrix_str, vblock3, hblock3, vblock2, npZerosStr,
        npNegEyeStr, npT, npMap] <;>
      split_ifs <;> first | rfl | omega | decide
  · intro i j hi
    simp only [get_tableau_matrix_str, vblock3, hblock3, vblock2, npZerosStr,
      npNegEyeStr, npT, npMap]
    split_ifs <;> first | rfl | omega | decide
  · intro i j hi
    simp only [get_tableau_matrix_str, vblock3, hblock3, vblock2, npZerosStr,
      npNegEyeStr, npT, npMap]
    split_ifs <;> first | rfl | omega | decide

/-! ## Helper lemmas: row swaps of `elmer_format_matrix` -/

lemma cons_set_perm {ρ : Type} :
    ∀ (t : List ρ) (b : ℕ) (hb : b < t.length) (x : ρ),
    (t[b] :: t.set b x).Perm (x :: t) := by
  intro t
  induction t with
  | nil =>
      intro b hb
      simp at hb
  | cons y t ih =>
      intro b hb x
      cases b with
      | zero => exact List.Perm.swap x y t
      | succ b =>
          have hb' : b < t.length := by simpa using hb
          have h1 : (t[b] :: y :: t.set b x).Perm (y :: t[b] :: t.set b x) :=
            List.Perm.swap y (t[b]) (t.set b x)
          have h2 : (y :: t[b] :: t.set b x).Perm (y :: x :: t) :=
            (ih b hb' x).cons y
          exact h1.trans (h2.trans (List.Perm.swap x y t))

lemma rowSwap_perm {ρ : Type} :
    ∀ (M : List ρ) (a b : ℕ) (ha : a < M.length) (hb : b < M.length),
    ((M.set a M[b]).set b M[a]).Perm M := by
  intro M
  induction M with
  | nil =>
      intro a b ha
      simp at ha
  | cons m0 t ih =>
      intro a b ha hb
      cases a with
      | zero =>
          cases b with
          | zero => exact List.Perm.refl _
          | succ b => exact cons_set_perm t b (by simpa using hb) m0
      | succ a =>
          cases b with
          | zero => exact cons_set_perm t a (by simpa using ha) m0
          | succ b =>
              exact (ih a b (by simpa using ha) (by simpa using hb)).cons m0

lemma npRowSwap_spec {ρ : Type} (M : List ρ) (a b : ℕ)
    (ha : a < M.length) (hb : b < M.length) :
    ∃ M2, npRowSwap M a b = some M2 ∧ M2.length = M.length ∧ M2.Perm M ∧
      ∀ i, M2[i]? = M[(Equiv.swap a b) i]? := by
  refine ⟨(M.set a M[b]).set b M[a], ?_, by simp, rowSwap_perm M a b ha hb, ?_⟩
  · unfold npRowSwap
    rw [List.getElem?_eq_getElem ha, List.getElem?_eq_getElem hb]
  · intro i
    by_cases hib : i = b
    · rw [hib, List.getElem?_set_self (by simpa using hb), Equiv.swap_apply_right,
        List.getElem?_eq_getElem ha]
    · by_cases hia : i = a
      · have hab : a ≠ b := fun h => hib (hia.trans h)
        rw [hia, List.getElem?_set_ne (fun h => hab h.symm),
          List.getElem?_set_self (by simpa using ha), Equiv.swap_apply_left,
          List.getElem?_eq_getElem hb]
      · rw [List.getElem?_set_ne (fun h => hib h.symm),
          List.getElem?_set_ne (fun h => hia h.symm),
          Equiv.swap_apply_of_ne_of_ne hia hib]

/-- The composite row permutation performed by the swap loop: the first
pair is applied outermost because later swaps read through it. -/
def permOfPairs : List (ℕ × ℕ) → Equiv.Perm ℕ
  | [] => 1
  | p :: rest => Equiv.swap p.1 p.2 * permOfPairs rest

lemma permOfPairs_fix {N : ℕ} :
    ∀ (pairs : List (ℕ × ℕ)), (∀ p ∈ pairs, p.1 < N ∧ p.2 < N) →
    ∀ i, N ≤ i → permOfPairs pairs i = i := by
  intro pairs
  induction pairs with
  | nil =>
      intro _ i _
      rfl
  | cons p rest ih =>
      intro h i hi
      have hp := h p (List.mem_cons_self _ _)
      show (Equiv.swap p.1 p.2) (permOfPairs rest i) = i
      rw [ih (fun q hq => h q (List.mem_cons_of_mem p hq)) i hi,
        Equiv.swap_apply_of_ne_of_ne (by omega) (by omega)]

lemma npSwapFold_spec {ρ : Type} {N : ℕ} :
    ∀ (pairs : List (ℕ × ℕ)) (M : List ρ), M.length = N →
    (∀ p ∈ pairs, p.1 < N ∧ p.2 < N) →
    ∃ out, npSwapFold M pairs = some out ∧ out.length = N ∧ out.Perm M ∧
      ∀ i, out[i]? = M[(permOfPairs pairs) i]? := by
  intro pairs
  induction pairs with
  | nil =>
      intro M hlen _
      exact ⟨M, rfl, hlen, List.Perm.refl M, fun i => rfl⟩
  | cons p rest ih =>
      intro M hlen h
      have hp := h p (List.mem_cons_self _ _)
      obtain ⟨M1, hM1, hlen1, hperm1, hget1⟩ :=
        npRowSwap_spec M p.1 p.2 (by omega) (by omega)
      obtain ⟨out, hout, hlen2, hperm2, hget2⟩ := ih M1 (by omega)
        (fun q hq => h q (List.mem_cons_of_mem p hq))
      refine ⟨out, ?_, hlen2, hperm2.trans hperm1, ?_⟩
      · simpa [npSwapFold, hM1] using hout
      · intro i
        rw [hget2 i, hget1 (permOfPairs rest i)]
        rfl

/-! ## Track agreement -/

/-- The canonical zero text tokens of the symbolic track: the empty cell
(before normalization) and `0` (after normalization). -/
def isZeroTok (s : String) : Prop := s = "" ∨ s = "0"

/-- A numeric cell and a symbolic cell agree: the symbolic token is
nonzero exactly when the number is, and carries a leading `-` exactly
when the number is negative. -/
def agree (q : ℚ) (s : String) : Prop :=
  (q ≠ 0 ↔ ¬ isZeroTok s) ∧ (q < 0 ↔ s.data.head? = some '-')

instance (q : ℚ) (s : String) : Decidable (agree q s) := by
  unfold agree isZeroTok
  infer_instance

/-- Cellwise agreement of a numeric and a symbolic matrix on a
`rows × cols` window. -/
def agreeMat (M : NpMat ℚ) (S : NpMat String) (rows cols : ℕ) : Prop :=
  ∀ i, i < rows → ∀ j, j < cols → agree (M.entry i j) (S.entry i j)

/-! ## Claims C4, C6, C8, C10: evaluations exhibiting the code behaviour -/

/-- C4: when `vcomp_rows` has more entries than `zero_rows`,
`elmer_format_matrix` must report a hard configuration error instead of
silently dropping the excess rows.  The code does not: `zip` truncates the
pair list, the swap loop only processes the one available pair, the
excess voltage-component row 2 is left in place, and a normal result is
returned with no error. -/
theorem claim_C4 :
    elmer_format_matrix [["a"], ["b"], ["c"]] [["d"], ["e"], ["f"]]
      [["s0"], ["s1"], ["s2"]] [1, 2] [0] =
      some ([["e"], ["d"], ["f"]], [["b"], ["a"], ["c"]], [["s1"], ["s0"], ["s2"]]) := by
  rfl

/-- C6: `get_rhs` must put `+value` at every current-source index.  On the
mixture `[I1 = 2 (real), I2 = 3+4i (complex)]` with `indi = [0, 1]`, the
complex branch rebuilds `rhs_i` from the freshly created real/imaginary
accumulators, so the previously stored real entry `2` at index 0 is
discarded: the result is `0` there, not `+2`. -/
theorem claim_C6 :
    (get_rhs [⟨.isrc, "I1", 1, 2, some (.real 2)⟩, ⟨.isrc, "I2", 2, 1, some (.cplx 3 4)⟩]
      2 [0, 1] []).map (fun v => (v.entry 0 0, v.entry 1 0)) =
      some (⟨0, 0⟩, ⟨3, 4⟩) := by
  norm_num [get_rhs, rhsLoop, rhsInit, qcAdd]

/-- C8: a non-positive terminal id must be rejected before matrix work
begins.  Instead, for a component with `pin1 = 0` the row index `-1`
silently wraps to the last row of the numpy array: the builder returns a
matrix (no error), and after deleting the reference row the `+1` that
belongs to no valid node sits at row 0. -/
theorem claim_C8 :
    (get_incidence_matrix [⟨.res, "R1", 0, 1, some (.real 1)⟩] 2 1 1).map
      (fun M => (M.rows, M.cols, M.entry 0 0)) = some (1, 1, 1) := by
  norm_num [get_incidence_matrix, resolveRows, npIndex, npDelete, npAdd,
      show ((2 : ℤ).toNat = 2) from rfl]

/-- C10: an `ElmerComponent` must never expose a closed terminal type and
declared boundary ids at the same time.  After `isOpen(1, 2)` followed by
`isClosed()`, `getTerminalType()` returns `True` while
`getOpenTerminals()` still returns the two boundaries, because
`isClosed()` never clears them. -/
theorem claim_C10 :
    getTerminalType (ecRun [.open2 1 2, .close]) = some true ∧
    getOpenTerminals (ecRun [.open2 1 2, .close]) = [some 1, some 2] :=
  ⟨rfl, rfl⟩

/-! ## Counterexamples for the corrected claims C1 and C9 -/

/-- C1 counterexample: on the circuit `[R1 (1,2), R2 (2,2)]` with
reference node 1, the self-loop column of the incidence matrix is `0.0`
on the numeric track but the concatenated token `1-1` on the symbolic
track — a nonzero text token in a cell whose numeric value is zero, so
track agreement fails as universally stated. -/
theorem claim_C1_counterexample :
    (get_incidence_matrix [⟨.res, "R1", 1, 2, some (.real 1)⟩,
      ⟨.res, "R2", 2, 2, some (.real 1)⟩] 2 2 1).map (fun M => M.entry 0 1) = some 0 ∧
    (get_incidence_matrix_str [⟨.res, "R1", 1, 2, some (.real 1)⟩,
      ⟨.res, "R2", 2, 2, some (.real 1)⟩] 2 2 1).map (fun M => M.entry 0 1) =
      some "1-1" ∧
    ¬ agree 0 "1-1" := by
  refine ⟨?_, ?_, by decide⟩
  · norm_num [get_incidence_matrix, resolveRows, npIndex, npDelete, npAdd,
      show ((2 : ℤ).toNat = 2) from rfl]
  · norm_num [get_incidence_matrix_str, resolveRows, npIndex, npDelete, npCat,
      show ((2 : ℤ).toNat = 2) from rfl]
    rfl

/-- C9 counterexample: for the single-resistor circuit `[R1 (1,2)]` with
reference node 1, `get_incidence_matrix` returns the `1 × 1` matrix
`[[-1]]`: its only column sums to `-1`, not `0`, because deleting the
reference row removed the cancelling `+1`. -/
theorem claim_C9_counterexample :
    (get_incidence_matrix [⟨.res, "R1", 1, 2, some (.real 1)⟩] 2 1 1).map
      (fun M => (M.rows, ∑ i ∈ Finset.range 1, M.entry i 0)) = some (1, -1) ∧
    (-1 : ℚ) ≠ 0 := by
  refine ⟨?_, by norm_num⟩
  norm_num [get_incidence_matrix, resolveRows, npIndex, npDelete, npAdd,
    Finset.sum_range_one, show ((2 : ℤ).toNat = 2) from rfl]

/-! ## Claim C3: incidence matrix construction -/

/-- The construction contract of `get_incidence_matrix` on valid input:
shape `(num_nodes - 1) × num_edges`, entries `+1`/`-1` placed by
terminal-id-minus-one with the reference row deleted, and zero columns for
self-loops. -/
def IncidenceSpec (comps : List Comp) (num_nodes : ℕ) (ref : ℤ) : Prop :=
  ∃ M, get_incidence_matrix comps num_nodes comps.length ref = some M ∧
    M.rows = num_nodes - 1 ∧ M.cols = comps.length ∧
    (∀ i j c, comps[j]? = some c →
      M.entry i j =
        (if (c.pin1 - 1).toNat = skipIdx (ref - 1).toNat i then 1 else 0)
        + (if (c.pin2 - 1).toNat = skipIdx (ref - 1).toNat i then -1 else 0)) ∧
    (∀ i j c, comps[j]? = some c → c.pin1 = c.pin2 → M.entry i j = 0)

/-- C3: for every component list whose terminal ids all lie in
`1..num_nodes` and whose reference node lies in `1..num_nodes`,
`get_incidence_matrix` returns the `(num_nodes - 1) × num_edges` matrix
obtained by placing `+1` at row `pin1 - 1` and `-1` at row `pin2 - 1` of
each component's column (the entries add when both land on the same row,
so a self-loop column is all zero) and then deleting the row
`reference - 1`. -/
theorem claim_C3 (comps : List Comp) (num_nodes : ℕ) (ref : ℤ)
    (H1 : ∀ c ∈ comps, 1 ≤ c.pin1 ∧ c.pin1 ≤ (num_nodes : ℤ) ∧
      1 ≤ c.pin2 ∧ c.pin2 ≤ (num_nodes : ℤ))
    (H3 : 1 ≤ ref ∧ ref ≤ (num_nodes : ℤ)) :
    IncidenceSpec comps num_nodes ref := by
  obtain ⟨M, hM, hrows, hcols, hentry⟩ := get_incidence_matrix_spec comps num_nodes ref H1 H3
  refine ⟨M, hM, hrows, hcols, hentry, ?_⟩
  intro i j c hc hloop
  rw [hentry i j c hc, hloop]
  by_cases h : (c.pin2 - 1).toNat = skipIdx (ref - 1).toNat i
  · rw [if_pos h, if_pos h]
    norm_num
  · rw [if_neg h, if_neg h]
    norm_num

/-- C3 witness: the contract evaluated on the one-resistor circuit
`[R1 (1,2)]` with two nodes and reference node 1. -/
theorem claim_C3_witness :
    (∀ c ∈ [(⟨.res, "R1", 1, 2, some (.real 1)⟩ : Comp)],
      1 ≤ c.pin1 ∧ c.pin1 ≤ (2 : ℤ) ∧ 1 ≤ c.pin2 ∧ c.pin2 ≤ (2 : ℤ)) ∧
    ((1 : ℤ) ≤ 1 ∧ (1 : ℤ) ≤ 2) ∧
    IncidenceSpec [⟨.res, "R1", 1, 2, some (.real 1)⟩] 2 1 :=
  ⟨by decide, ⟨by decide, by decide⟩,
    claim_C3 [⟨.res, "R1", 1, 2, some (.real 1)⟩] 2 1 (by decide) ⟨by decide, by decide⟩⟩

/-! ## Claim C9: row count and column sums -/

lemma sum_skip_indicator (n r0 p : ℕ) (v : ℚ) (hr : r0 < n) (hp : p < n)
    (hpr : p ≠ r0) :
    ∑ i ∈ Finset.range (n - 1), (if p = skipIdx r0 i then v else 0) = v := by
  by_cases hpr0 : p < r0
  · refine (Finset.sum_eq_single p ?_ ?_).trans ?_
    · intro b hb hne
      rw [if_neg]
      unfold skipIdx
      split <;> omega
    · intro hp'
      exact absurd (Finset.mem_range.mpr (by omega)) hp'
    · simp [skipIdx, hpr0]
  · refine (Finset.sum_eq_single (p - 1) ?_ ?_).trans ?_
    · intro b hb hne
      rw [if_neg]
      unfold skipIdx
      split <;> omega
    · intro hp'
      exact absurd (Finset.mem_range.mpr (by omega)) hp'
    · rw [if_pos]
      unfold skipIdx
      rw [if_neg (by omega)]
      omega

/-- The amended column-sum property: the matrix kept its
`num_nodes - 1` rows, and a column sums to zero whenever its component
touches the reference node with neither terminal, or is a self-loop. -/
def IncColSumSpec (comps : List Comp) (ref : ℤ) : Prop :=
  ∃ M, get_incidence_matrix comps (get_num_nodes comps) (get_num_edges comps) ref
      = some M ∧
    M.rows = get_num_nodes comps - 1 ∧
    ∀ j c, comps[j]? = some c →
      ((c.pin1 ≠ ref ∧ c.pin2 ≠ ref) ∨ c.pin1 = c.pin2) →
      ∑ i ∈ Finset.range (get_num_nodes comps - 1), M.entry i j = 0

/-- C9 (amended): for every circuit with valid terminal and reference
ids, the incidence matrix has exactly `num_nodes - 1` rows, and every
column whose component does not touch the reference node — and every
self-loop column — sums to zero.  (A column incident to the reference
node sums to the negative of its deleted entry, see the
counterexample.) -/
theorem claim_C9 (comps : List Comp) (ref : ℤ)
    (H1 : ∀ c ∈ comps, 1 ≤ c.pin1 ∧ c.pin1 ≤ (get_num_nodes comps : ℤ) ∧
      1 ≤ c.pin2 ∧ c.pin2 ≤ (get_num_nodes comps : ℤ))
    (H3 : 1 ≤ ref ∧ ref ≤ (get_num_nodes comps : ℤ)) :
    IncColSumSpec comps ref := by
  obtain ⟨M, hM, hrows, hcols, hentry⟩ :=
    get_incidence_matrix_spec comps (get_num_nodes comps) ref H1 H3
  refine ⟨M, hM, hrows, ?_⟩
  intro j c hc hcond
  have hcb := H1 c (List.getElem?_mem hc)
  rcases hcond with ⟨hne1, hne2⟩ | hloop
  · have hsplit : ∀ i, M.entry i j =
        (if (c.pin1 - 1).toNat = skipIdx (ref - 1).toNat i then (1 : ℚ) else 0)
        + (if (c.pin2 - 1).toNat = skipIdx (ref - 1).toNat i then (-1 : ℚ) else 0) :=
      fun i => hentry i j c hc
    calc ∑ i ∈ Finset.range (get_num_nodes comps - 1), M.entry i j
        = (∑ i ∈ Finset.range (get_num_nodes comps - 1),
            (if (c.pin1 - 1).toNat = skipIdx (ref - 1).toNat i then (1 : ℚ) else 0))
          + ∑ i ∈ Finset.range (get_num_nodes comps - 1),
            (if (c.pin2 - 1).toNat = skipIdx (ref - 1).toNat i then (-1 : ℚ) else 0) := by
          rw [← Finset.sum_add_distrib]
          exact Finset.sum_congr rfl (fun i _ => hsplit i)
      _ = 1 + (-1) := by
          rw [sum_skip_indicator (get_num_nodes comps) _ _ 1 (by omega) (by omega)
              (by omega),
            sum_skip_indicator (get_num_nodes comps) _ _ (-1) (by omega) (by omega)
              (by omega)]
      _ = 0 := by norm_num
  · refine Finset.sum_eq_zero (fun i _ => ?_)
    rw [hentry i j c hc, hloop]
    by_cases h : (c.pin2 - 1).toNat = skipIdx (ref - 1).toNat i
    · rw [if_pos h, if_pos h]
      norm_num
    · rw [if_neg h, if_neg h]
      norm_num

/-- C9 witness: the amended property evaluated on the circuit
`[R1 (2,3), R2 (1,2)]` (three nodes, reference node 1), whose first
column touches the reference node with neither terminal. -/
theorem claim_C9_witness :
    (∀ c ∈ [(⟨.res, "R1", 2, 3, some (.real 1)⟩ : Comp),
        ⟨.res, "R2", 1, 2, some (.real 1)⟩],
      1 ≤ c.pin1 ∧ c.pin1 ≤ (3 : ℤ) ∧ 1 ≤ c.pin2 ∧ c.pin2 ≤ (3 : ℤ)) ∧
    ((1 : ℤ) ≤ 1 ∧ (1 : ℤ) ≤ 3) ∧
    IncColSumSpec [⟨.res, "R1", 2, 3, some (.real 1)⟩,
      ⟨.res, "R2", 1, 2, some (.real 1)⟩] 1 :=
  ⟨by decide, ⟨by decide, by decide⟩,
    claim_C9 [⟨.res, "R1", 2, 3, some (.real 1)⟩, ⟨.res, "R2", 1, 2, some (.real 1)⟩]
      1 (by decide) ⟨by decide, by decide⟩⟩

/-! ## Claim C2: tableau block structure -/

/-- C2: for all inputs of the pipeline shapes — incidence
`(num_nodes-1) × num_edges`, four branch matrices `num_edges × num_edges`
and source `num_edges × 1` — `get_tableau_matrix` returns `Mmat1` equal to
the block matrix `[[A 0 0], [0 -I Aᵀ], [R G 0]]`, `Mmat2` zero everywhere
except the bottom row-block `[L C 0]`, and `bvec = [0; 0; fvec]`, with
row-block heights `num_nodes-1`, `num_edges`, `num_edges` and
column-block widths `num_edges`, `num_edges`, `num_nodes-1`. -/
theorem claim_C2 (A R G L C fv : NpMat ℚ) (n e : ℕ)
    (hA1 : A.rows = n - 1) (hA2 : A.cols = e)
    (hR1 : R.rows = e) (hR2 : R.cols = e)
    (hG1 : G.rows = e) (hG2 : G.cols = e)
    (hL1 : L.rows = e) (hL2 : L.cols = e)
    (hC1 : C.rows = e) (hC2 : C.cols = e)
    (hf1 : fv.rows = e) (hf2 : fv.cols = 1) :
    TableauCells A R G L C fv n e :=
  get_tableau_matrix_spec A R G L C fv n e hA1 hA2 hR1 hR2 hG1 hG2 hL1 hL2
    hC1 hC2 hf1 hf2

def wIncMat : NpMat ℚ := ⟨1, 2, fun _ _ => 0⟩

def wSqMat : NpMat ℚ := ⟨2, 2, fun _ _ => 0⟩

def wSrcVec : NpMat ℚ := ⟨2, 1, fun _ _ => 0⟩

/-- C2 witness: the block structure evaluated at a concrete
two-node / two-edge shape. -/
theorem claim_C2_witness :
    (wIncMat.rows = 2 - 1 ∧ wIncMat.cols = 2 ∧ wSqMat.rows = 2 ∧ wSqMat.cols = 2 ∧
      wSrcVec.rows = 2 ∧ wSrcVec.cols = 1) ∧
    TableauCells wIncMat wSqMat wSqMat wSqMat wSqMat wSrcVec 2 2 :=
  ⟨⟨rfl, rfl, rfl, rfl, rfl, rfl⟩,
    claim_C2 wIncMat wSqMat wSqMat wSqMat wSqMat wSrcVec 2 2
      rfl rfl rfl rfl rfl rfl rfl rfl rfl rfl rfl rfl⟩

/-! ## Claim C5: row reordering is a consistent permutation -/

/-- C5: for all inputs and equal-length in-range index lists, the three
outputs of `elmer_format_matrix` are row-permutations of the three inputs
(the multiset of rows is preserved), and one single index permutation
relates all three outputs to their inputs. -/
theorem claim_C5 {ρ₁ ρ₂ ρ₃ : Type} (M1 : List ρ₁) (M2 : List ρ₂) (b : List ρ₃)
    (vcomp_rows zero_rows : List ℕ) (n : ℕ)
    (h1 : M1.length = n) (h2 : M2.length = n) (h3 : b.length = n)
    (hlen : zero_rows.length = vcomp_rows.length)
    (hz : ∀ i ∈ zero_rows, i < n) (hv : ∀ i ∈ vcomp_rows, i < n) :
    ∃ A B s, elmer_format_matrix M1 M2 b vcomp_rows zero_rows = some (A, B, s) ∧
      A.Perm M2 ∧ B.Perm M1 ∧ s.Perm b ∧
      ∃ σ : Equiv.Perm ℕ, (∀ i, n ≤ i → σ i = i) ∧
        (∀ i, A[i]? = M2[σ i]?) ∧ (∀ i, B[i]? = M1[σ i]?) ∧
        (∀ i, s[i]? = b[σ i]?) := by
  have hpairs : ∀ p ∈ zero_rows.zip vcomp_rows, p.1 < n ∧ p.2 < n := by
    intro p hp
    obtain ⟨hp1, hp2⟩ := List.mem_zip hp
    exact ⟨hz p.1 hp1, hv p.2 hp2⟩
  obtain ⟨B, hB, hlenB, hpermB, hgetB⟩ := npSwapFold_spec (zero_rows.zip vcomp_rows) M1 h1 hpairs
  obtain ⟨A, hA, hlenA, hpermA, hgetA⟩ := npSwapFold_spec (zero_rows.zip vcomp_rows) M2 h2 hpairs
  obtain ⟨s, hs, hlenS, hpermS, hgetS⟩ := npSwapFold_spec (zero_rows.zip vcomp_rows) b h3 hpairs
  refine ⟨A, B, s, ?_, hpermA, hpermB, hpermS,
    permOfPairs (zero_rows.zip vcomp_rows),
    permOfPairs_fix (zero_rows.zip vcomp_rows) hpairs, hgetA, hgetB, hgetS⟩
  simp [elmer_format_matrix, hA, hB, hs]

/-- C5 witness: the permutation property at a concrete pair of
`2 × 1` string matrices and swap lists `zero_rows = [0]`,
`vcomp_rows = [1]`. -/
theorem claim_C5_witness :
    ([["a"], ["b"]] : List (List String)).length = 2 ∧
    ([["c"], ["d"]] : List (List String)).length = 2 ∧
    ([["e"], ["f"]] : List (List String)).length = 2 ∧
    ([0] : List ℕ).length = ([1] : List ℕ).length ∧
    (∀ i ∈ ([0] : List ℕ), i < 2) ∧ (∀ i ∈ ([1] : List ℕ), i < 2) ∧
    ∃ A B s, elmer_format_matrix [["a"], ["b"]] [["c"], ["d"]] [["e"], ["f"]]
        [1] [0] = some (A, B, s) ∧
      A.Perm [["c"], ["d"]] ∧ B.Perm [["a"], ["b"]] ∧ s.Perm [["e"], ["f"]] ∧
      ∃ σ : Equiv.Perm ℕ, (∀ i, 2 ≤ i → σ i = i) ∧
        (∀ i, A[i]? = [["c"], ["d"]][σ i]?) ∧ (∀ i, B[i]? = [["a"], ["b"]][σ i]?) ∧
        (∀ i, s[i]? = [["e"], ["f"]][σ i]?) :=
  ⟨rfl, rfl, rfl, rfl, by decide, by decide,
    claim_C5 [["a"], ["b"]] [["c"], ["d"]] [["e"], ["f"]] [1] [0] 2
      rfl rfl rfl rfl (by decide) (by decide)⟩

/-! ## Claim C7: branch-law matrices are diagonal with the stated values -/

/-- The four numeric branch-law matrices built with the index lists of
`get_indices`: all off-diagonal cells zero, diagonals as the spec lists
them (the conditions are mutually exclusive, one component has one
kind). -/
def BranchDiagSpec (comps : List Comp) : Prop :=
  ∃ Rm Gm Lm Cm,
    get_resistance_matrix comps (get_num_edges comps) (get_indices comps).1
      (get_indices comps).2.2.1 (get_indices comps).2.2.2.2.1 = some Rm ∧
    get_conductance_matrix (get_num_edges comps) (get_indices comps).1
      (get_indices comps).2.1 (get_indices comps).2.2.2.1 = some Gm ∧
    get_inductance_matrix comps (get_num_edges comps) (get_indices comps).2.2.2.1
      = some Lm ∧
    get_capacitance_matrix comps (get_num_edges comps) (get_indices comps).2.2.2.2.1
      = some Cm ∧
    (Rm.rows = get_num_edges comps ∧ Rm.cols = get_num_edges comps ∧
      Gm.rows = get_num_edges comps ∧ Gm.cols = get_num_edges comps ∧
      Lm.rows = get_num_edges comps ∧ Lm.cols = get_num_edges comps ∧
      Cm.rows = get_num_edges comps ∧ Cm.cols = get_num_edges comps) ∧
    (∀ a b, a ≠ b → Rm.entry a b = 0 ∧ Gm.entry a b = 0 ∧
      Lm.entry a b = 0 ∧ Cm.entry a b = 0) ∧
    (∀ a,
      Rm.entry a a = (if kindAt comps a = .res then valAt comps a else 0)
        + (if kindAt comps a = .isrc then 1 else 0)
        + (if kindAt comps a = .cap then 1 else 0) ∧
      Gm.entry a a = (if kindAt comps a = .res then -1 else 0)
        + (if kindAt comps a = .vsrc then 1 else 0)
        + (if kindAt comps a = .ind then 1 else 0) ∧
      Lm.entry a a = (if kindAt comps a = .ind then -valAt comps a else 0) ∧
      Cm.entry a a = (if kindAt comps a = .cap then -valAt comps a else 0))

/-- C7: each numeric branch-law builder returns a
`num_edges × num_edges` matrix with zero off-diagonal cells; the
diagonals carry the component value at resistor indices and `1` at
current-source and capacitor indices (resistance), `-1` at resistor and
`1` at voltage-source and inductor indices (conductance), the negated
inductor value (inductance) and the negated capacitor value
(capacitance), and `0` elsewhere. -/
theorem claim_C7 (comps : List Comp)
    (hres : realValued comps .res) (hind : realValued comps .ind)
    (hcap : realValued comps .cap) :
    BranchDiagSpec comps := by
  obtain ⟨Rm, hRm, hRr, hRc, hRoff, hRdiag⟩ := get_resistance_matrix_spec comps hres
  obtain ⟨Gm, hGm, hGr, hGc, hGoff, hGdiag⟩ := get_conductance_matrix_spec comps
  obtain ⟨Lm, hLm, hLr, hLc, hLoff, hLdiag⟩ := get_inductance_matrix_spec comps hind
  obtain ⟨Cm, hCm, hCr, hCc, hCoff, hCdiag⟩ := get_capacitance_matrix_spec comps hcap
  exact ⟨Rm, Gm, Lm, Cm, hRm, hGm, hLm, hCm,
    ⟨hRr, hRc, hGr, hGc, hLr, hLc, hCr, hCc⟩,
    fun a b hab => ⟨hRoff a b hab, hGoff a b hab, hLoff a b hab, hCoff a b hab⟩,
    fun a => ⟨hRdiag a, hGdiag a, hLdiag a, hCdiag a⟩⟩

/-- C7 witness: the diagonal description evaluated on a five-component
circuit holding one component of each electrical kind. -/
theorem claim_C7_witness :
    realValued [(⟨.res, "R1", 1, 2, some (.real 2)⟩ : Comp),
      ⟨.vsrc, "V1", 2, 3, some (.real 3)⟩, ⟨.isrc, "I1", 3, 1, some (.real 4)⟩,
      ⟨.ind, "L1", 1, 3, some (.real 5)⟩, ⟨.cap, "C1", 2, 1, some (.real 6)⟩] .res ∧
    realValued [(⟨.res, "R1", 1, 2, some (.real 2)⟩ : Comp),
      ⟨.vsrc, "V1", 2, 3, some (.real 3)⟩, ⟨.isrc, "I1", 3, 1, some (.real 4)⟩,
      ⟨.ind, "L1", 1, 3, some (.real 5)⟩, ⟨.cap, "C1", 2, 1, some (.real 6)⟩] .ind ∧
    realValued [(⟨.res, "R1", 1, 2, some (.real 2)⟩ : Comp),
      ⟨.vsrc, "V1", 2, 3, some (.real 3)⟩, ⟨.isrc, "I1", 3, 1, some (.real 4)⟩,
      ⟨.ind, "L1", 1, 3, some (.real 5)⟩, ⟨.cap, "C1", 2, 1, some (.real 6)⟩] .cap ∧
    BranchDiagSpec [(⟨.res, "R1", 1, 2, some (.real 2)⟩ : Comp),
      ⟨.vsrc, "V1", 2, 3, some (.real 3)⟩, ⟨.isrc, "I1", 3, 1, some (.real 4)⟩,
      ⟨.ind, "L1", 1, 3, some (.real 5)⟩, ⟨.cap, "C1", 2, 1, some (.real 6)⟩] :=
  ⟨by decide, by decide, by decide,
    claim_C7 [⟨.res, "R1", 1, 2, some (.real 2)⟩, ⟨.vsrc, "V1", 2, 3, some (.real 3)⟩,
      ⟨.isrc, "I1", 3, 1, some (.real 4)⟩, ⟨.ind, "L1", 1, 3, some (.real 5)⟩,
      ⟨.cap, "C1", 2, 1, some (.real 6)⟩] (by decide) (by decide) (by decide)⟩

/-! ## Claim C1: infrastructure for the amended track-agreement theorem -/

/-- The component value is a strictly positive real. -/
def posValB (v : Option CVal) : Bool :=
  match v with
  | some (.real q) => decide (0 < q)
  | _ => false

lemma posValB_exists {v : Option CVal} (h : posValB v = true) :
    ∃ q, v = some (.real q) ∧ 0 < q := by
  unfold posValB at h
  cases hv : v with
  | none =>
      rw [hv] at h
      exact Bool.noConfusion h
  | some c =>
      cases c with
      | real q =>
          rw [hv] at h
          exact ⟨q, rfl, of_decide_eq_true h⟩
      | cplx x y =>
          rw [hv] at h
          exact Bool.noConfusion h

/-- A component name that survives the cleanup passes with its
zero/nonzero status and sign intact: nonempty, no leading `-`, and not a
zero literal the normalization would collapse. -/
def goodName (s : String) : Bool :=
  !(s == "") && !(s == "0") && !(s == "0.0") && !(s.data.head? == some '-')

lemma goodName_spec {s : String} (h : goodName s = true) :
    s ≠ "" ∧ s ≠ "0" ∧ s ≠ "0.0" ∧ s.data.head? ≠ some '-' := by
  unfold goodName at h
  simp only [Bool.and_eq_true, Bool.not_eq_true', beq_eq_false_iff_ne, ne_eq] at h
  exact ⟨h.1.1.1, h.1.1.2, h.1.2, h.2⟩

lemma agree_pos {q : ℚ} {s : String} (hq : 0 < q) (h1 : s ≠ "") (h0 : s ≠ "0")
    (hd : s.data.head? ≠ some '-') : agree q s := by
  unfold agree isZeroTok
  refine ⟨⟨fun _ h => ?_, fun _ => ne_of_gt hq⟩,
    ⟨fun hlt => absurd hlt (not_lt.mpr hq.le), fun hh => absurd hh hd⟩⟩
  rcases h with rfl | rfl
  · exact h1 rfl
  · exact h0 rfl

lemma agree_neg {q : ℚ} {s : String} (hq : 0 < q) (h1 : s ≠ "") (h0 : s ≠ "0")
    (hd : s.data.head? = some '-') : agree (-q) s := by
  unfold agree isZeroTok
  refine ⟨⟨fun _ h => ?_, fun _ => neg_ne_zero.mpr (ne_of_gt hq)⟩,
    ⟨fun _ => hd, fun _ => neg_neg_of_pos hq⟩⟩
  rcases h with rfl | rfl
  · exact h1 rfl
  · exact h0 rfl

lemma dash_head (s : String) : ("-" ++ s).data.head? = some '-' := by
  simp [String.data_append]

lemma dash_ne_empty (s : String) : "-" ++ s ≠ "" := by
  intro h
  have := congrArg String.data h
  simp [String.data_append] at this

lemma dash_ne_of_head {s t : String} (h : t.data.head? ≠ some '-') : "-" ++ s ≠ t := by
  intro he
  rw [← he, dash_head] at h
  exact h rfl

lemma dash_inj {s t : String} (h : "-" ++ s = "-" ++ t) : s = t := by
  have := congrArg String.data h
  simp only [String.data_append] at this
  exact String.ext (by simpa using this)

/-- The value/token shapes a branch-matrix or source cell can take on the
two tracks under the amendment hypotheses. -/
def CellOK (q : ℚ) (s : String) : Prop :=
  (q = 0 ∧ s = "") ∨ (q = 1 ∧ s = "1") ∨ (q = -1 ∧ s = "-1") ∨
  (∃ qq nm, 0 < qq ∧ goodName nm = true ∧
    ((q = qq ∧ s = nm) ∨ (q = -qq ∧ s = "-" ++ nm)))

lemma CellOK.agree_of {q : ℚ} {s : String} (h : CellOK q s) : agree q s := by
  rcases h with ⟨rfl, rfl⟩ | ⟨rfl, rfl⟩ | ⟨rfl, rfl⟩ |
    ⟨qq, nm, hqq, hnm, ⟨hq1, hs1⟩ | ⟨hq1, hs1⟩⟩
  · decide
  · decide
  · decide
  · obtain ⟨h1, h0, _, hd⟩ := goodName_spec hnm
    rw [hq1, hs1]
    exact agree_pos hqq h1 h0 hd
  · rw [hq1, hs1]
    exact agree_neg hqq (dash_ne_empty nm) (dash_ne_of_head (by decide)) (dash_head nm)

lemma CellOK.agree_clean1 {q : ℚ} {s : String} (h : CellOK q s) :
    agree q (clean1 s) := by
  rcases h with ⟨rfl, rfl⟩ | ⟨rfl, rfl⟩ | ⟨rfl, rfl⟩ |
    ⟨qq, nm, hqq, hnm, ⟨hq1, hs1⟩ | ⟨hq1, hs1⟩⟩
  · decide
  · decide
  · decide
  · obtain ⟨h1, h0, h00, hd⟩ := goodName_spec hnm
    rw [hq1, hs1]
    unfold clean1
    split_ifs with ha hb hc
    · rcases ha with rfl | rfl | rfl
      · exact absurd rfl h1
      · exact absurd rfl h00
      · exact absurd (by decide) hd
    · subst hb
      exact absurd (by decide) hd
    · exact agree_pos hqq (by decide) (by decide) (by decide)
    · exact agree_pos hqq h1 h0 hd
  · obtain ⟨h1, h0, h00, hd⟩ := goodName_spec hnm
    rw [hq1, hs1]
    unfold clean1
    split_ifs with ha hb hc
    · rcases ha with ha | ha | ha
      · exact absurd ha (dash_ne_empty nm)
      · exact absurd ha (dash_ne_of_head (by decide))
      · exact absurd (dash_inj (ha.trans (by decide))) h00
    · exact agree_neg hqq (by decide) (by decide) (by decide)
    · exact absurd hc (dash_ne_of_head (by decide))
    · exact agree_neg hqq (dash_ne_empty nm) (dash_ne_of_head (by decide)) (dash_head nm)

lemma CellOK.agree_cleanb2 {q : ℚ} {s : String} (h : CellOK q s) :
    agree q (cleanb (cleanb s)) := by
  rcases h with ⟨rfl, rfl⟩ | ⟨rfl, rfl⟩ | ⟨rfl, rfl⟩ |
    ⟨qq, nm, hqq, hnm, ⟨hq1, hs1⟩ | ⟨hq1, hs1⟩⟩
  · decide
  · decide
  · decide
  · obtain ⟨h1, h0, h00, hd⟩ := goodName_spec hnm
    rw [hq1, hs1]
    have hfix : cleanb nm = nm := by
      unfold cleanb
      rw [if_neg]
      rintro (rfl | rfl | rfl)
      · exact h1 rfl
      · exact h00 rfl
      · exact hd (by decide)
    rw [hfix, hfix]
    exact agree_pos hqq h1 h0 hd
  · obtain ⟨h1, h0, h00, hd⟩ := goodName_spec hnm
    rw [hq1, hs1]
    have hfix : cleanb ("-" ++ nm) = "-" ++ nm := by
      unfold cleanb
      rw [if_neg]
      rintro (ha | ha | ha)
      · exact dash_ne_empty nm ha
      · exact dash_ne_of_head (by decide) ha
      · exact h00 (dash_inj (ha.trans (by decide)))
    rw [hfix, hfix]
    exact agree_neg hqq (dash_ne_empty nm) (dash_ne_of_head (by decide)) (dash_head nm)

lemma compAt_eq {comps : List Comp} {a : ℕ} (ha : a < comps.length) :
    compAt comps a = comps[a] := by
  unfold compAt
  rw [List.getElem?_eq_getElem ha, Option.getD_some]

/-- The value-positivity hypothesis of the amended track agreement. -/
def PosValued (comps : List Comp) : Prop :=
  ∀ c ∈ comps,
    (c.kind = .res ∨ c.kind = .vsrc ∨ c.kind = .isrc ∨ c.kind = .ind ∨ c.kind = .cap) →
    posValB c.value = true

/-- The name hypothesis of the amended track agreement. -/
def GoodNames (comps : List Comp) : Prop := ∀ c ∈ comps, goodName c.name = true

lemma realValued_of_posVal {comps : List Comp} (Hval : PosValued comps)
    {k : CompKind}
    (h5 : k = .res ∨ k = .vsrc ∨ k = .isrc ∨ k = .ind ∨ k = .cap) :
    realValued comps k := by
  intro c hc hk
  obtain ⟨q, hv, _⟩ := posValB_exists (Hval c hc (by
    rcases h5 with rfl | rfl | rfl | rfl | rfl <;> simp [hk]))
  unfold floatVal
  rw [hv]
  rfl

lemma valAt_pos {comps : List Comp} (Hval : PosValued comps) {a : ℕ} {k : CompKind}
    (hk : kindAt comps a = k)
    (h5 : k = .res ∨ k = .vsrc ∨ k = .isrc ∨ k = .ind ∨ k = .cap) :
    0 < valAt comps a := by
  have hne : k ≠ .generic := by
    rcases h5 with rfl | rfl | rfl | rfl | rfl <;> decide
  have ha := kindAt_lt hk hne
  have hkc : comps[a].kind = k := by
    rw [← compAt_eq ha]
    exact hk
  obtain ⟨q, hv, hq⟩ := posValB_exists (Hval comps[a] (List.getElem_mem ha) (by
    rcases h5 with rfl | rfl | rfl | rfl | rfl <;> simp [hkc]))
  unfold valAt
  rw [compAt_eq ha, hv]
  exact hq

lemma goodName_at {comps : List Comp} (Hname : GoodNames comps) {a : ℕ}
    (ha : a < comps.length) : goodName (nameAt comps a) = true := by
  unfold nameAt
  rw [compAt_eq ha]
  exact Hname comps[a] (List.getElem_mem ha)

/-! ### Cell classifications of the six builder pairs -/

lemma inc_cells (comps : List Comp) (ref : ℤ)
    (Hpins : ∀ c ∈ comps, 1 ≤ c.pin1 ∧ c.pin1 ≤ (get_num_nodes comps : ℤ) ∧
      1 ≤ c.pin2 ∧ c.pin2 ≤ (get_num_nodes comps : ℤ))
    (Href : 1 ≤ ref ∧ ref ≤ (get_num_nodes comps : ℤ))
    (Hloop : ∀ c ∈ comps, c.pin1 ≠ c.pin2) :
    ∃ A As,
      get_incidence_matrix comps (get_num_nodes comps) (get_num_edges comps) ref
        = some A ∧
      get_incidence_matrix_str comps (get_num_nodes comps) (get_num_edges comps) ref
        = some As ∧
      A.rows = get_num_nodes comps - 1 ∧ A.cols = comps.length ∧
      As.rows = get_num_nodes comps - 1 ∧ As.cols = comps.length ∧
      ∀ i j, j < comps.length → CellOK (A.entry i j) (As.entry i j) := by
  obtain ⟨A, hA, hAr, hAc, hAe⟩ :=
    get_incidence_matrix_spec comps (get_num_nodes comps) ref Hpins Href
  obtain ⟨As, hAs, hAsr, hAsc, hAse⟩ :=
    get_incidence_matrix_str_spec comps (get_num_nodes comps) ref Hpins Href
  refine ⟨A, As, hA, hAs, hAr, hAc, hAsr, hAsc, ?_⟩
  intro i j hj
  have hc : comps[j]? = some comps[j] := List.getElem?_eq_getElem hj
  set c := comps[j] with hcdef
  have hmem : c ∈ comps := List.getElem_mem hj
  have hb := Hpins c hmem
  have hl := Hloop c hmem
  rw [hAe i j c hc, hAse i j c hc]
  have hne : ¬((c.pin1 - 1).toNat = skipIdx (ref - 1).toNat i ∧
      (c.pin2 - 1).toNat = skipIdx (ref - 1).toNat i) := by
    rintro ⟨e1, e2⟩
    exact hl (by omega)
  by_cases h1 : (c.pin1 - 1).toNat = skipIdx (ref - 1).toNat i <;>
    by_cases h2 : (c.pin2 - 1).toNat = skipIdx (ref - 1).toNat i
  · exact absurd ⟨h1, h2⟩ hne
  · rw [if_pos h1, if_neg h2, if_pos h1, if_neg h2]
    exact Or.inr (Or.inl ⟨by norm_num, by simp⟩)
  · rw [if_neg h1, if_pos h2, if_neg h1, if_pos h2]
    exact Or.inr (Or.inr (Or.inl ⟨by norm_num, by simp⟩))
  · rw [if_neg h1, if_neg h2, if_neg h1, if_neg h2]
    exact Or.inl ⟨by norm_num, by simp⟩

lemma res_cells (comps : List Comp) (Hval : PosValued comps)
    (Hname : GoodNames comps) :
    ∃ Rm Rs,
      get_resistance_matrix comps comps.length (kindIdx .res comps 0)
        (kindIdx .isrc comps 0) (kindIdx .cap comps 0) = some Rm ∧
      get_resistance_matrix_str comps comps.length (kindIdx .res comps 0)
        (kindIdx .isrc comps 0) (kindIdx .cap comps 0) = some Rs ∧
      Rm.rows = comps.length ∧ Rm.cols = comps.length ∧
      Rs.rows = comps.length ∧ Rs.cols = comps.length ∧
      ∀ a b, CellOK (Rm.entry a b) (Rs.entry a b) := by
  obtain ⟨Rm, hRm, hr1, hr2, hoff, hdiag⟩ := get_resistance_matrix_spec comps
    (realValued_of_posVal Hval (Or.inl rfl))
  obtain ⟨Rs, hRs, hs1, hs2, hsoff, hsdiag⟩ := get_resistance_matrix_str_spec comps
  refine ⟨Rm, Rs, hRm, hRs, hr1, hr2, hs1, hs2, ?_⟩
  intro a b
  by_cases hab : a = b
  · subst hab
    rw [hdiag a, hsdiag a]
    cases hk : kindAt comps a with
    | res =>
        simp only [reduceCtorEq, if_true, if_false, eq_self_iff_true]
        have ha := kindAt_lt hk (by decide)
        refine Or.inr (Or.inr (Or.inr ⟨valAt comps a, nameAt comps a,
          valAt_pos Hval hk (Or.inl rfl), goodName_at Hname ha, Or.inl ⟨by norm_num, by simp⟩⟩))
    | isrc =>
        simp only [reduceCtorEq, if_true, if_false, eq_self_iff_true]
        exact Or.inr (Or.inl ⟨by norm_num, by simp⟩)
    | cap =>
        simp only [reduceCtorEq, if_true, if_false, eq_self_iff_true]
        exact Or.inr (Or.inl ⟨by norm_num, by simp⟩)
    | vsrc => exact Or.inl ⟨by simp, by simp⟩
    | ind => exact Or.inl ⟨by simp, by simp⟩
    | celm => exact Or.inl ⟨by simp, by simp⟩
    | generic => exact Or.inl ⟨by simp, by simp⟩
  · rw [hoff a b hab, hsoff a b hab]
    exact Or.inl ⟨rfl, rfl⟩

lemma cond_cells (comps : List Comp) :
    ∃ Gm Gs,
      get_conductance_matrix comps.length (kindIdx .res comps 0)
        (kindIdx .vsrc comps 0) (kindIdx .ind comps 0) = some Gm ∧
      get_conductance_matrix_str comps.length (kindIdx .res comps 0)
        (kindIdx .vsrc comps 0) (kindIdx .ind comps 0) = some Gs ∧
      Gm.rows = comps.length ∧ Gm.cols = comps.length ∧
      Gs.rows = comps.length ∧ Gs.cols = comps.length ∧
      ∀ a b, CellOK (Gm.entry a b) (Gs.entry a b) := by
  obtain ⟨Gm, hGm, h1, h2, hoff, hdiag⟩ := get_conductance_matrix_spec comps
  obtain ⟨Gs, hGs, h3, h4, hsoff, hsdiag⟩ := get_conductance_matrix_str_spec comps
  refine ⟨Gm, Gs, hGm, hGs, h1, h2, h3, h4, ?_⟩
  intro a b
  by_cases hab : a = b
  · subst hab
    rw [hdiag a, hsdiag a]
    cases hk : kindAt comps a with
    | res => exact Or.inr (Or.inr (Or.inl ⟨by simp, by simp⟩))
    | vsrc => exact Or.inr (Or.inl ⟨by simp, by simp⟩)
    | ind => exact Or.inr (Or.inl ⟨by simp, by simp⟩)
    | isrc => exact Or.inl ⟨by simp, by simp⟩
    | cap => exact Or.inl ⟨by simp, by simp⟩
    | celm => exact Or.inl ⟨by simp, by simp⟩
    | generic => exact Or.inl ⟨by simp, by simp⟩
  · rw [hoff a b hab, hsoff a b hab]
    exact Or.inl ⟨rfl, rfl⟩

lemma ind_cells (comps : List Comp) (Hval : PosValued comps)
    (Hname : GoodNames comps) :
    ∃ Lm Ls,
      get_inductance_matrix comps comps.length (kindIdx .ind comps 0) = some Lm ∧
      get_inductance_matrix_str comps comps.length (kindIdx .ind comps 0) = some Ls ∧
      Lm.rows = comps.length ∧ Lm.cols = comps.length ∧
      Ls.rows = comps.length ∧ Ls.cols = comps.length ∧
      ∀ a b, CellOK (Lm.entry a b) (Ls.entry a b) := by
  obtain ⟨Lm, hLm, h1, h2, hoff, hdiag⟩ := get_inductance_matrix_spec comps
    (realValued_of_posVal Hval (Or.inr (Or.inr (Or.inr (Or.inl rfl)))))
  obtain ⟨Ls, hLs, h3, h4, hsoff, hsdiag⟩ := get_inductance_matrix_str_spec comps
  refine ⟨Lm, Ls, hLm, hLs, h1, h2, h3, h4, ?_⟩
  intro a b
  by_cases hab : a = b
  · subst hab
    rw [hdiag a, hsdiag a]
    by_cases hk : kindAt comps a = .ind
    · rw [if_pos hk, if_pos hk]
      have ha := kindAt_lt hk (by decide)
      exact Or.inr (Or.inr (Or.inr ⟨valAt comps a, nameAt comps a,
        valAt_pos Hval hk (Or.inr (Or.inr (Or.inr (Or.inl rfl)))),
        goodName_at Hname ha, Or.inr ⟨rfl, rfl⟩⟩))
    · rw [if_neg hk, if_neg hk]
      exact Or.inl ⟨rfl, rfl⟩
  · rw [hoff a b hab, hsoff a b hab]
    exact Or.inl ⟨rfl, rfl⟩

lemma cap_cells (comps : List Comp) (Hval : PosValued comps)
    (Hname : GoodNames comps) :
    ∃ Cm Cs,
      get_capacitance_matrix comps comps.length (kindIdx .cap comps 0) = some Cm ∧
      get_capacitance_matrix_str comps comps.length (kindIdx .cap comps 0) = some Cs ∧
      Cm.rows = comps.length ∧ Cm.cols = comps.length ∧
      Cs.rows = comps.length ∧ Cs.cols = comps.length ∧
      ∀ a b, CellOK (Cm.entry a b) (Cs.entry a b) := by
  obtain ⟨Cm, hCm, h1, h2, hoff, hdiag⟩ := get_capacitance_matrix_spec comps
    (realValued_of_posVal Hval (Or.inr (Or.inr (Or.inr (Or.inr rfl)))))
  obtain ⟨Cs, hCs, h3, h4, hsoff, hsdiag⟩ := get_capacitance_matrix_str_spec comps
  refine ⟨Cm, Cs, hCm, hCs, h1, h2, h3, h4, ?_⟩
  intro a b
  by_cases hab : a = b
  · subst hab
    rw [hdiag a, hsdiag a]
    by_cases hk : kindAt comps a = .cap
    · rw [if_pos hk, if_pos hk]
      have ha := kindAt_lt hk (by decide)
      exact Or.inr (Or.inr (Or.inr ⟨valAt comps a, nameAt comps a,
        valAt_pos Hval hk (Or.inr (Or.inr (Or.inr (Or.inr rfl)))),
        goodName_at Hname ha, Or.inr ⟨rfl, rfl⟩⟩))
    · rw [if_neg hk, if_neg hk]
      exact Or.inl ⟨rfl, rfl⟩
  · rw [hoff a b hab, hsoff a b hab]
    exact Or.inl ⟨rfl, rfl⟩

/-- The real part of a complex-valued numpy array. -/
def npRe (M : NpMat QC) : NpMat ℚ := ⟨M.rows, M.cols, fun i j => (M.entry i j).re⟩

lemma rhs_cells (comps : List Comp) (Hval : PosValued comps)
    (Hname : GoodNames comps) :
    ∃ f fs,
      get_rhs comps comps.length (kindIdx .isrc comps 0) (kindIdx .vsrc comps 0)
        = some f ∧
      get_rhs_str comps comps.length (kindIdx .isrc comps 0) (kindIdx .vsrc comps 0)
        = some fs ∧
      f.rows = comps.length ∧ f.cols = 1 ∧ fs.rows = comps.length ∧ fs.cols = 1 ∧
      (∀ i j, (f.entry i j).im = 0) ∧
      ∀ i j, CellOK ((npRe f).entry i j) (fs.entry i j) := by
  obtain ⟨f, hf, h1, h2, hent⟩ := get_rhs_real_spec comps
    (realValued_of_posVal Hval (Or.inr (Or.inr (Or.inl rfl))))
    (realValued_of_posVal Hval (Or.inr (Or.inl rfl)))
  obtain ⟨fs, hfs, h3, h4, hsent⟩ := get_rhs_str_spec comps
  refine ⟨f, fs, hf, hfs, h1, h2, h3, h4, fun i j => by rw [hent i j], ?_⟩
  intro i j
  show CellOK (f.entry i j).re (fs.entry i j)
  rw [hent i j, hsent i j]
  by_cases hki : kindAt comps i = .isrc <;> by_cases hkv : kindAt comps i = .vsrc
  · rw [hki] at hkv
    exact CompKind.noConfusion hkv
  · rw [if_pos hki, if_neg hkv, if_pos hki, if_neg hkv]
    have ha := kindAt_lt hki (by decide)
    exact Or.inr (Or.inr (Or.inr ⟨valAt comps i, nameAt comps i,
      valAt_pos Hval hki (Or.inr (Or.inr (Or.inl rfl))),
      goodName_at Hname ha, Or.inl ⟨by norm_num, by simp⟩⟩))
  · rw [if_neg hki, if_pos hkv, if_neg hki, if_pos hkv]
    have ha := kindAt_lt hkv (by decide)
    exact Or.inr (Or.inr (Or.inr ⟨valAt comps i, nameAt comps i,
      valAt_pos Hval hkv (Or.inr (Or.inl rfl)),
      goodName_at Hname ha, Or.inr ⟨by norm_num, by simp⟩⟩))
  · rw [if_neg hki, if_neg hkv, if_neg hki, if_neg hkv]
    exact Or.inl ⟨by norm_num, by simp⟩

/-- Track agreement (amended): every builder pair succeeds and every cell
of the incidence pair, the four branch pairs, the source pair, and the
three assembled tableau artifacts agrees across the numeric and symbolic
tracks in the sense of `agree`. -/
def TrackAgreement (comps : List Comp) (ref : ℤ) : Prop :=
  ∃ A As Rm Rs Gm Gs Lm Ls Cm Cs f fs,
    get_incidence_matrix comps (get_num_nodes comps) (get_num_edges comps) ref
      = some A ∧
    get_incidence_matrix_str comps (get_num_nodes comps) (get_num_edges comps) ref
      = some As ∧
    get_resistance_matrix comps (get_num_edges comps) (get_indices comps).1
      (get_indices comps).2.2.1 (get_indices comps).2.2.2.2.1 = some Rm ∧
    get_resistance_matrix_str comps (get_num_edges comps) (get_indices comps).1
      (get_indices comps).2.2.1 (get_indices comps).2.2.2.2.1 = some Rs ∧
    get_conductance_matrix (get_num_edges comps) (get_indices comps).1
      (get_indices comps).2.1 (get_indices comps).2.2.2.1 = some Gm ∧
    get_conductance_matrix_str (get_num_edges comps) (get_indices comps).1
      (get_indices comps).2.1 (get_indices comps).2.2.2.1 = some Gs ∧
    get_inductance_matrix comps (get_num_edges comps) (get_indices comps).2.2.2.1
      = some Lm ∧
    get_inductance_matrix_str comps (get_num_edges comps) (get_indices comps).2.2.2.1
      = some Ls ∧
    get_capacitance_matrix comps (get_num_edges comps) (get_indices comps).2.2.2.2.1
      = some Cm ∧
    get_capacitance_matrix_str comps (get_num_edges comps) (get_indices comps).2.2.2.2.1
      = some Cs ∧
    get_rhs comps (get_num_edges comps) (get_indices comps).2.2.1
      (get_indices comps).2.1 = some f ∧
    get_rhs_str comps (get_num_edges comps) (get_indices comps).2.2.1
      (get_indices comps).2.1 = some fs ∧
    agreeMat A As (get_num_nodes comps - 1) (get_num_edges comps) ∧
    agreeMat Rm Rs (get_num_edges comps) (get_num_edges comps) ∧
    agreeMat Gm Gs (get_num_edges comps) (get_num_edges comps) ∧
    agreeMat Lm Ls (get_num_edges comps) (get_num_edges comps) ∧
    agreeMat Cm Cs (get_num_edges comps) (get_num_edges comps) ∧
    (∀ i j, (f.entry i j).im = 0) ∧
    agreeMat (npRe f) fs (get_num_edges comps) 1 ∧
    agreeMat
      (get_tableau_matrix A Rm Gm Lm Cm (npRe f)
        (get_num_nodes comps) (get_num_edges comps)).1
      (get_tableau_matrix_str As Rs Gs Ls Cs fs
        (get_num_nodes comps) (get_num_edges comps)).1
      ((get_num_nodes comps - 1) + get_num_edges comps + get_num_edges comps)
      (get_num_edges comps + get_num_edges comps + (get_num_nodes comps - 1)) ∧
    agreeMat
      (get_tableau_matrix A Rm Gm Lm Cm (npRe f)
        (get_num_nodes comps) (get_num_edges comps)).2.1
      (get_tableau_matrix_str As Rs Gs Ls Cs fs
        (get_num_nodes comps) (get_num_edges comps)).2.1
      ((get_num_edges comps + (get_num_nodes comps - 1)) + get_num_edges comps)
      (2 * get_num_edges comps + (get_num_nodes comps - 1)) ∧
    agreeMat
      (get_tableau_matrix A Rm Gm Lm Cm (npRe f)
        (get_num_nodes comps) (get_num_edges comps)).2.2
      (get_tableau_matrix_str As Rs Gs Ls Cs fs
        (get_num_nodes comps) (get_num_edges comps)).2.2
      ((get_num_nodes comps - 1) + get_num_edges comps + get_num_edges comps) 1

lemma agree_zero_cell : agree 0 "0" := by decide

lemma agree_negone_cell : agree (-1) "-1" := by decide

lemma sub_lt_of_lt_add_left {a b c : ℕ} (h1 : b ≤ a) (h2 : a < b + c) : a - b < c := by
  omega

set_option maxHeartbeats 2000000 in
/-- C1 (amended): for every circuit whose terminal ids lie in
`1..num_nodes` with a valid reference node, no self-loops, all component
values strictly positive reals, and all component names nonempty, free of
a leading `-` and distinct from the zero literals the cleanup collapses,
the symbolic-track builders produce a nonzero text token exactly in the
cells where the numeric-track builders produce a nonzero number, with a
leading `-` exactly when the numeric entry is negative — for the
incidence matrix, the five branch-law artifacts, and the assembled
stiffness, damping and source blocks.  (Self-loops break the property:
see the counterexample, where the symbolic cell reads `1-1` while the
numeric cell is `0`; zero, negative, or complex values and dash-leading
or zero-literal names break it likewise.) -/
theorem claim_C1 (comps : List Comp) (ref : ℤ)
    (Hpins : ∀ c ∈ comps, 1 ≤ c.pin1 ∧ c.pin1 ≤ (get_num_nodes comps : ℤ) ∧
      1 ≤ c.pin2 ∧ c.pin2 ≤ (get_num_nodes comps : ℤ))
    (Href : 1 ≤ ref ∧ ref ≤ (get_num_nodes comps : ℤ))
    (Hloop : ∀ c ∈ comps, c.pin1 ≠ c.pin2)
    (Hval : PosValued comps) (Hname : GoodNames comps) :
    TrackAgreement comps ref := by
  unfold TrackAgreement
  simp only [get_num_edges]
  obtain ⟨A, As, hA, hAs, hAr, hAc, hAsr, hAsc, hAcell⟩ :=
    inc_cells comps ref Hpins Href Hloop
  obtain ⟨Rm, Rs, hRm, hRs, hRr, hRc, hRsr, hRsc, hRcell⟩ := res_cells comps Hval Hname
  obtain ⟨Gm, Gs, hGm, hGs, hGr, hGc, hGsr, hGsc, hGcell⟩ := cond_cells comps
  obtain ⟨Lm, Ls, hLm, hLs, hLr, hLc, hLsr, hLsc, hLcell⟩ := ind_cells comps Hval Hname
  obtain ⟨Cm, Cs, hCm, hCs, hCr, hCc, hCsr, hCsc, hCcell⟩ := cap_cells comps Hval Hname
  obtain ⟨f, fs, hf, hfs, hfr, hfc, hfsr, hfsc, hfim, hfcell⟩ :=
    rhs_cells comps Hval Hname
  obtain ⟨_, _, _, _, _, _, hKCL, hKVL, hCOMP, hM2top, hM2bot, hBtop, hBbot⟩ :=
    get_tableau_matrix_spec A Rm Gm Lm Cm (npRe f)
      (get_num_nodes comps) comps.length
      hAr hAc hRr hRc hGr hGc hLr hLc hCr hCc hfr hfc
  obtain ⟨_, _, _, _, _, _, hsKCL, hsKVL, hsCOMP, hsM2top, hsM2bot, hsBtop, hsBbot⟩ :=
    get_tableau_matrix_str_spec As Rs Gs Ls Cs fs
      (get_num_nodes comps) comps.length
      hAsr hAsc hRsr hRsc hGsr hGsc hLsr hLsc hCsr hCsc hfsr hfsc
  refine ⟨A, As, Rm, Rs, Gm, Gs, Lm, Ls, Cm, Cs, f, fs,
    hA, hAs, hRm, hRs, hGm, hGs, hLm, hLs, hCm, hCs, hf, hfs,
    fun i _ j hj => (hAcell i j hj).agree_of,
    fun i _ j _ => (hRcell i j).agree_of,
    fun i _ j _ => (hGcell i j).agree_of,
    fun i _ j _ => (hLcell i j).agree_of,
    fun i _ j _ => (hCcell i j).agree_of,
    hfim,
    fun i _ j _ => (hfcell i j).agree_of,
    ?_, ?_, ?_⟩
  · intro i hi j hj
    by_cases hi1 : i < get_num_nodes comps - 1
    · by_cases hj1 : j < comps.length
      · rw [(hKCL i j hi1).1 hj1, (hsKCL i j hi1).1 hj1]
        exact (hAcell i j hj1).agree_clean1
      · by_cases hj2 : j < comps.length + comps.length
        · rw [(hKCL i j hi1).2.1 (Nat.not_lt.mp hj1) hj2,
            (hsKCL i j hi1).2.1 (Nat.not_lt.mp hj1) hj2]
          exact agree_zero_cell
        · rw [(hKCL i j hi1).2.2 (Nat.not_lt.mp hj2),
            (hsKCL i j hi1).2.2 (Nat.not_lt.mp hj2)]
          exact agree_zero_cell
    · by_cases hi2 : i < get_num_nodes comps - 1 + comps.length
      · by_cases hj1 : j < comps.length
        · rw [(hKVL i j (Nat.not_lt.mp hi1) hi2).1 hj1,
            (hsKVL i j (Nat.not_lt.mp hi1) hi2).1 hj1]
          exact agree_zero_cell
        · by_cases hj2 : j < comps.length + comps.length
          · rw [(hKVL i j (Nat.not_lt.mp hi1) hi2).2.1 (Nat.not_lt.mp hj1) hj2,
              (hsKVL i j (Nat.not_lt.mp hi1) hi2).2.1 (Nat.not_lt.mp hj1) hj2]
            by_cases hc : i - (get_num_nodes comps - 1) = j - comps.length
            · rw [if_pos hc, if_pos hc]
              exact agree_negone_cell
            · rw [if_neg hc, if_neg hc]
              exact agree_zero_cell
          · rw [(hKVL i j (Nat.not_lt.mp hi1) hi2).2.2 (Nat.not_lt.mp hj2),
              (hsKVL i j (Nat.not_lt.mp hi1) hi2).2.2 (Nat.not_lt.mp hj2)]
            exact (hAcell (j - comps.length - comps.length)
              (i - (get_num_nodes comps - 1))
              (sub_lt_of_lt_add_left (Nat.not_lt.mp hi1) hi2)).agree_clean1
      · by_cases hj1 : j < comps.length
        · rw [(hCOMP i j (Nat.not_lt.mp hi2) hi).1 hj1,
            (hsCOMP i j (Nat.not_lt.mp hi2) hi).1 hj1]
          exact (hRcell (i - (get_num_nodes comps - 1) - comps.length) j).agree_clean1
        · by_cases hj2 : j < comps.length + comps.length
          · rw [(hCOMP i j (Nat.not_lt.mp hi2) hi).2.1 (Nat.not_lt.mp hj1) hj2,
              (hsCOMP i j (Nat.not_lt.mp hi2) hi).2.1 (Nat.not_lt.mp hj1) hj2]
            exact (hGcell (i - (get_num_nodes comps - 1) - comps.length)
              (j - comps.length)).agree_clean1
          · rw [(hCOMP i j (Nat.not_lt.mp hi2) hi).2.2 (Nat.not_lt.mp hj2),
              (hsCOMP i j (Nat.not_lt.mp hi2) hi).2.2 (Nat.not_lt.mp hj2)]
            exact agree_zero_cell
  · intro i hi j hj
    by_cases hi1 : i < comps.length + (get_num_nodes comps - 1)
    · rw [hM2top i j hi1, hsM2top i j hi1]
      exact agree_zero_cell
    · by_cases hj1 : j < comps.length
      · rw [(hM2bot i j (Nat.not_lt.mp hi1)).1 hj1,
          (hsM2bot i j (Nat.not_lt.mp hi1)).1 hj1]
        exact (hLcell (i - (comps.length + (get_num_nodes comps - 1))) j).agree_clean1
      · by_cases hj2 : j < comps.length + comps.length
        · rw [(hM2bot i j (Nat.not_lt.mp hi1)).2.1 (Nat.not_lt.mp hj1) hj2,
            (hsM2bot i j (Nat.not_lt.mp hi1)).2.1 (Nat.not_lt.mp hj1) hj2]
          exact (hCcell (i - (comps.length + (get_num_nodes comps - 1)))
            (j - comps.length)).agree_clean1
        · rw [(hM2bot i j (Nat.not_lt.mp hi1)).2.2 (Nat.not_lt.mp hj2),
            (hsM2bot i j (Nat.not_lt.mp hi1)).2.2 (Nat.not_lt.mp hj2)]
          exact agree_zero_cell
  · intro i hi j hj
    by_cases hi1 : i < get_num_nodes comps - 1 + comps.length
    · rw [hBtop i j hi1, hsBtop i j hi1]
      exact agree_zero_cell
    · rw [hBbot i j (Nat.not_lt.mp hi1), hsBbot i j (Nat.not_lt.mp hi1)]
      exact (hfcell (i - (get_num_nodes comps - 1) - comps.length) j).agree_cleanb2

/-- Concrete two-component circuit for the track-agreement witness: a
resistor of value `2` between nodes `1` and `2` and a voltage source of
value `3` between nodes `2` and `1`, reference node `1`. -/
def wC1comps : List Comp :=
  [⟨.res, "R1", 1, 2, some (.real 2)⟩, ⟨.vsrc, "V1", 2, 1, some (.real 3)⟩]

theorem claim_C1_witness :
    ((∀ c ∈ wC1comps, 1 ≤ c.pin1 ∧ c.pin1 ≤ (get_num_nodes wC1comps : ℤ) ∧
        1 ≤ c.pin2 ∧ c.pin2 ≤ (get_num_nodes wC1comps : ℤ)) ∧
      (1 ≤ (1 : ℤ) ∧ (1 : ℤ) ≤ (get_num_nodes wC1comps : ℤ)) ∧
      (∀ c ∈ wC1comps, c.pin1 ≠ c.pin2) ∧
      PosValued wC1comps ∧ GoodNames wC1comps) ∧
    TrackAgreement wC1comps 1 :=
  ⟨⟨by decide, by decide, by decide,
      by unfold PosValued; decide, by unfold GoodNames; decide⟩,
    claim_C1 wC1comps 1 (by decide) (by decide) (by decide)
      (by unfold PosValued; decide) (by unfold GoodNames; decide)⟩
